import Mathlib

/-!
Verification of the subtitle aggregation, caching, rate-limiting and
match-scoring core of the stremio-subtitloo addon.

The JavaScript source is shallowly embedded: pure functions become Lean
functions over `List Char` / `String`, JS objects become structures with
`Option` fields (an absent property is `none`), JS `Map`s become
association lists, timestamps are `Int` milliseconds, and the stateful
single-flight download resolution is a small-step transition system.
JS truthiness is modelled explicitly where the source relies on it.
-/

namespace SubtitlooSpec

/-- JS truthiness of an optional string: `undefined`/`null` and the empty
string are falsy, any other string is truthy. -/
def truthyS : Option String → Bool
  | some s => !s.data.isEmpty
  | none => false

/-- JS truthiness of an optional number: `undefined`/`null` and `0` are
falsy (NaN, which is also falsy, is folded into `none`). -/
def truthyI : Option Int → Bool
  | some n => n != 0
  | none => false

/-- JS `a || b` where `a` is a possibly-absent string and `b` a string:
returns `a` unless it is absent or empty. -/
def jsOrS : Option String → String → String
  | some s, b => if s.data.isEmpty then b else s
  | none, b => b

/-- Whitespace class used for JS `\s` and for `parseInt` trimming
(the exotic Unicode space code points are immaterial to every claim and
are modelled by `Char.isWhitespace`). -/
def jsSpaceChar (c : Char) : Bool := c.isWhitespace

/-- Character class `[A-Za-z0-9]` of the release-group regex. -/
def isAlnumChar (c : Char) : Bool := c.isAlpha || c.isDigit

/-- Splits a character list around the last occurrence of `sep`:
`splitAtLast s (a ++ [s] ++ b) = some (a', b)` with `b` free of `sep`. -/
def splitAtLast (sep : Char) : List Char → Option (List Char × List Char)
  | [] => none
  | c :: rest =>
    match splitAtLast sep rest with
    | some (a, b) => some (c :: a, b)
    | none => if c = sep then some ([], rest) else none

/-- Release group extraction, the match of the case-insensitive regex
`-([A-Za-z0-9]+)(?:\.[a-z]{2,4})?$` in `parseReleaseName` followed by
`toUpperCase()`.  Because the captured token is `[A-Za-z0-9]+` and the
optional extension is `\.[a-z]{2,4}`, a match, when it exists, is anchored
at the last hyphen of the name and consumes the whole tail, so the regex
search is equivalent to this suffix analysis. -/
def groupFromName (s : String) : Option String :=
  match splitAtLast '-' s.data with
  | none => none
  | some (_, tail) =>
    match splitAtLast '.' tail with
    | none =>
      if !tail.isEmpty && tail.all isAlnumChar then
        some (String.mk (tail.map Char.toUpper))
      else none
    | some (w, e) =>
      if !w.isEmpty && w.all isAlnumChar && e.all Char.isAlpha
          && 2 ≤ e.length && e.length ≤ 4 then
        some (String.mk (w.map Char.toUpper))
      else none

/-- Containment of a character sequence in a text (used to model the
alternation-of-literals regexes tested with `.test(filename)`). -/
def containsSeq (pat : List Char) : List Char → Bool
  | [] => pat.isEmpty
  | c :: rest => pat.isPrefixOf (c :: rest) || containsSeq pat rest

/-- Case-insensitive containment of a literal (given lowercase) in `s`,
modelling `/lit/i.test(s)`. -/
def containsCI (s : String) (pat : String) : Bool :=
  containsSeq pat.data (s.data.map Char.toLower)

/-- Quality tier detection of `parseReleaseName` (first pattern wins). -/
def qualityFromName (s : String) : Option String :=
  if containsCI s "2160p" || containsCI s "4k" || containsCI s "uhd" then some "2160p"
  else if containsCI s "1080p" then some "1080p"
  else if containsCI s "720p" then some "720p"
  else if containsCI s "480p" then some "480p"
  else if containsCI s "hdtv" then some "HDTV"
  else none

/-- Source type detection of `parseReleaseName` (first pattern wins). -/
def sourceFromName (s : String) : Option String :=
  if containsCI s "bluray" || containsCI s "blu-ray" || containsCI s "bdrip"
      || containsCI s "brrip" then some "BluRay"
  else if containsCI s "webrip" || containsCI s "web-rip" then some "WEBRip"
  else if containsCI s "web-dl" || containsCI s "webdl" then some "WEB-DL"
  else if containsCI s "hdtv" then some "HDTV"
  else if containsCI s "dvdrip" then some "DVDRip"
  else none

/-- Codec detection of `parseReleaseName` (`h\.?265` unfolds to the two
literals `h265` and `h.265`, similarly for 264). -/
def codecFromName (s : String) : Option String :=
  if containsCI s "x265" || containsCI s "h265" || containsCI s "h.265"
      || containsCI s "hevc" then some "x265"
  else if containsCI s "x264" || containsCI s "h264" || containsCI s "h.264"
      || containsCI s "avc" then some "x264"
  else none

/-- Trailing separator class `[.\s)\]]` of the year regex. -/
def isYearEnd (c : Char) : Bool := c = '.' || jsSpaceChar c || c = ')' || c = ']'

/-- Attempts the year pattern `(19|20)\d{2}` followed by a separator at the
head of the list; on success returns the four digits, which is what
`match[0].replace(/[.\s()[\]]/g, '')` leaves of the matched text. -/
def yearAt : List Char → Option String
  | c1 :: c2 :: c3 :: c4 :: c5 :: _ =>
    if ((c1 = '1' ∧ c2 = '9') ∨ (c1 = '2' ∧ c2 = '0')) ∧ c3.isDigit ∧ c4.isDigit
        ∧ isYearEnd c5 then
      some (String.mk [c1, c2, c3, c4])
    else none
  | _ => none

/-- Leftmost match of the year regex
`/[.\s([]?(19|20)\d{2}[.\s)\]]/` stripped of its separators.  The optional
leading separator never changes the extracted digits, so the regex search
reduces to the leftmost position where `yearAt` succeeds. -/
def yearFromName : List Char → Option String
  | [] => none
  | c :: rest =>
    match yearAt (c :: rest) with
    | some y => some y
    | none => yearFromName rest

/-- Lowercasing plus replacement of `[._-]` by spaces, the `normalized`
field of `parseReleaseName`. -/
def normalizeName (s : String) : String :=
  String.mk ((s.data.map Char.toLower).map
    (fun c => if c = '.' ∨ c = '_' ∨ c = '-' then ' ' else c))

/-- Splits a character list into maximal whitespace-free words (auxiliary,
`acc` holds the current word reversed). -/
def splitWordsAux : List Char → List Char → List String
  | [], acc => if acc.isEmpty then [] else [String.mk acc.reverse]
  | c :: rest, acc =>
    if jsSpaceChar c then
      if acc.isEmpty then splitWordsAux rest []
      else String.mk acc.reverse :: splitWordsAux rest []
    else splitWordsAux rest (c :: acc)

/-- Token set of a normalized name: JS
`new Set(normalized.split(/\s+/).filter(w => w.length > 2))`.  Splitting
into maximal words rather than on separator runs only drops empty-string
artifacts, which the `length > 2` filter discards anyway; `dedup` gives
the `Set` semantics (first occurrences, in order). -/
def tokenSetOf (normalized : String) : List String :=
  ((splitWordsAux normalized.data []).filter (fun w => w.data.length > 2)).dedup

/-- Number of tokens of the first set present in the second, the
`commonWords` loop of `calculateMatchScore`. -/
def commonTokenCount (vn sn : String) : Nat :=
  ((tokenSetOf vn).filter (fun w => (tokenSetOf sn).contains w)).length

/-- Result object of `parseReleaseName`; absent JS properties are `none`
(the bare `{}` returned for a falsy filename is the default value). -/
structure ReleaseInfo where
  original : Option String := none
  normalized : Option String := none
  group : Option String := none
  quality : Option String := none
  source : Option String := none
  codec : Option String := none
  year : Option String := none
deriving DecidableEq, Repr

/-- Embedding of `parseReleaseName(filename)` of `src/index.js`. -/
def parseReleaseName (filename : Option String) : ReleaseInfo :=
  match filename with
  | none => {}
  | some f =>
    if f.data.isEmpty then {}
    else
      { original := some f
        normalized := some (normalizeName f)
        group := groupFromName f
        quality := qualityFromName f
        source := sourceFromName f
        codec := codecFromName f
        year := yearFromName f.data }

/-- A Stremio subtitle object as built by the `formatForStremio` methods;
`iRelease` and `iHashMatch` are the internal `_release` / `_hashMatch`
properties.  Presentation-only properties (`SubEncoding`, `SubRating`,
`SubDisplayTitle`, ...) are never read by the modelled core and are
omitted. -/
structure Sub where
  id : String := ""
  url : String := ""
  lang : String := ""
  release : Option String := none
  subFileName : Option String := none
  iRelease : Option String := none
  iHashMatch : Option Bool := none
deriving DecidableEq, Repr

/-- The release text `subtitle.release || subtitle.SubFileName || ''` that
`calculateMatchScore` parses for the candidate side. -/
def subReleaseOf (subtitle : Sub) : String :=
  jsOrS subtitle.release (jsOrS subtitle.subFileName "")

/-- Embedding of `calculateMatchScore(subtitle, videoInfo, hashMatch)` of
`src/index.js`, mirroring the sequential `score` accumulation of the
source (each guard models the JS truthiness conjunction). -/
def calculateMatchScore (subtitle : Sub) (videoInfo : ReleaseInfo)
    (hashMatch : Bool) : Nat :=
  if hashMatch then 100
  else
    let subInfo := parseReleaseName (some (subReleaseOf subtitle))
    let score : Nat := 0
    let score := if truthyS videoInfo.group ∧ truthyS subInfo.group
        ∧ videoInfo.group = subInfo.group then score + 40 else score
    let score := if truthyS videoInfo.quality ∧ truthyS subInfo.quality
        ∧ videoInfo.quality = subInfo.quality then score + 20 else score
    let score := if truthyS videoInfo.source ∧ truthyS subInfo.source
        ∧ videoInfo.source = subInfo.source then score + 15 else score
    let score := if truthyS videoInfo.codec ∧ truthyS subInfo.codec
        ∧ videoInfo.codec = subInfo.codec then score + 10 else score
    let score := if truthyS videoInfo.normalized ∧ truthyS subInfo.normalized then
        score + min (commonTokenCount (videoInfo.normalized.getD "")
          (subInfo.normalized.getD "")) 5
      else score
    score

/-- The `extra` request parameters relevant to file matching. -/
structure Extra where
  videoHash : Option String := none
  videoSize : Option String := none
  filename : Option String := none
deriving DecidableEq, Repr

/-- Result object of `parseId`. -/
structure ParsedId where
  imdbId : Option String := none
  type : String := ""
  season : Option Int := none
  episode : Option Int := none
  videoHash : Option String := none
  videoSize : Option Int := none
  filename : Option String := none
deriving DecidableEq, Repr

/-- Digit accumulation for `jsParseInt`. -/
def digitsToNat : List Char → Nat → Nat
  | [], acc => acc
  | c :: rest, acc => digitsToNat rest (acc * 10 + (c.toNat - '0'.toNat))

/-- JS `parseInt(s, 10)`: skip leading whitespace, optional sign, then the
maximal run of decimal digits; `none` models NaN. -/
def jsParseInt (s : String) : Option Int :=
  let cs := s.data.dropWhile jsSpaceChar
  let signed : Bool × List Char :=
    match cs with
    | '-' :: rest => (true, rest)
    | '+' :: rest => (false, rest)
    | _ => (false, cs)
  let ds := signed.2.takeWhile Char.isDigit
  if ds.isEmpty then none
  else some (if signed.1 then -(digitsToNat ds 0 : Int) else (digitsToNat ds 0 : Int))

/-- JS `parseInt(x, 10) || null` on a possibly-absent string: NaN and `0`
both collapse to `null`. -/
def jsIntOrNull (x : Option String) : Option Int :=
  match x with
  | none => none
  | some s =>
    match jsParseInt s with
    | none => none
    | some 0 => none
    | some k => some k

/-- JS `s.split(sep)` for a one-character separator (auxiliary). -/
def splitOnCharAux (sep : Char) : List Char → List Char → List String
  | [], acc => [String.mk acc.reverse]
  | c :: rest, acc =>
    if c = sep then String.mk acc.reverse :: splitOnCharAux sep rest []
    else splitOnCharAux sep rest (c :: acc)

/-- JS `s.split(sep)` for a one-character separator. -/
def jsSplitChar (s : String) (sep : Char) : List String :=
  splitOnCharAux sep s.data []

/-- The IMDB id regex `^tt\d+$`. -/
def isValidImdb (s : String) : Bool :=
  match s.data with
  | 't' :: 't' :: rest => !rest.isEmpty && rest.all Char.isDigit
  | _ => false

/-- Embedding of `parseId(id, type, extra)` of `src/index.js`.  A
`videoSize` whose `parseInt` is NaN is modelled as `none` (NaN and `null`
are equally falsy everywhere the field is read). -/
def parseId (id : String) (type : String) (extra : Extra) : ParsedId :=
  let result0 : ParsedId :=
    { imdbId := none
      type := type
      season := none
      episode := none
      videoHash := match extra.videoHash with
        | some h => if h.data.isEmpty then none else some h
        | none => none
      videoSize := if truthyS extra.videoSize then jsParseInt (extra.videoSize.getD "")
        else none
      filename := match extra.filename with
        | some f => if f.data.isEmpty then none else some f
        | none => none }
  if id.data.isEmpty then result0
  else
    let result1 :=
      if type = "series" ∧ id.data.contains ':' then
        let parts := jsSplitChar id ':'
        { result0 with
          imdbId := some (parts.headD "")
          season := jsIntOrNull parts[1]?
          episode := jsIntOrNull parts[2]? }
      else
        { result0 with imdbId := some ((jsSplitChar id ':').headD "") }
    match result1.imdbId with
    | some s => if isValidImdb s then result1 else { result1 with imdbId := none }
    | none => { result1 with imdbId := none }

/-- A subtitle paired with its `_score`, the object
`{...sub, _score: score}` built by `sortSubtitlesByMatch`. -/
structure ScoredSub where
  sub : Sub
  score : Nat
deriving DecidableEq, Repr

/-- Descending-score order of the comparator
`(a, b) => b._score - a._score`. -/
def scoreDescOrder (a b : ScoredSub) : Prop := b.score ≤ a.score

instance : DecidableRel scoreDescOrder :=
  fun a b => inferInstanceAs (Decidable (b.score ≤ a.score))

instance : IsTotal ScoredSub scoreDescOrder :=
  ⟨fun a b => Nat.le_total b.score a.score⟩

instance : IsTrans ScoredSub scoreDescOrder :=
  ⟨fun _ _ _ hab hbc => Nat.le_trans hbc hab⟩

/-- Removal of the internal scoring properties (`delete cleaned._score`
and friends) before the list is returned. -/
def stripInternal (sub : Sub) : Sub :=
  { sub with iRelease := none, iHashMatch := none }

/-- The scored list of `sortSubtitlesByMatch`: each subtitle is scored
with `isHashMatch = (sub._hashMatch === true)`. -/
def scoredOf (subtitles : List Sub) (videoInfo : ReleaseInfo) : List ScoredSub :=
  subtitles.map (fun sub =>
    { sub := sub
      score := calculateMatchScore sub videoInfo (decide (sub.iHashMatch = some true)) })

/-- The scored list after the descending stable sort
`scoredSubtitles.sort((a, b) => b._score - a._score)` (a JS sort with a
consistent comparator is the stable sort, modelled by insertion sort). -/
def sortedScored (subtitles : List Sub) (parsed : ParsedId) : List ScoredSub :=
  List.insertionSort scoreDescOrder (scoredOf subtitles (parseReleaseName parsed.filename))

/-- Embedding of `sortSubtitlesByMatch(subtitles, parsed)` of
`src/index.js`. -/
def sortSubtitlesByMatch (subtitles : List Sub) (parsed : ParsedId) : List Sub :=
  if !truthyS parsed.filename && !truthyS parsed.videoHash then subtitles
  else (sortedScored subtitles parsed).map (fun s => stripInternal s.sub)

/-- Removal of the binding of a key from an association list, the model
of `Map.delete` / `delete obj[key]`. -/
def eraseKey {α β : Type} [DecidableEq α] (k : α) : List (α × β) → List (α × β)
  | [] => []
  | e :: t => if e.1 = k then eraseKey k t else e :: eraseKey k t

/-! ## In-memory search-result cache (`SubtitlesCache` of `src/index.js`) -/

/-- One entry of the in-memory subtitles cache. -/
structure CacheItem where
  subtitles : List Sub
  expiry : Int
  timestamp : Int
deriving DecidableEq, Repr

/-- The `SubtitlesCache` object: a JS `Map` modelled as an association
list, plus the TTL and the hit/miss counters. -/
structure SubtitlesCache where
  cache : List (String × CacheItem) := []
  ttl : Int
  hits : Nat := 0
  misses : Nat := 0
deriving DecidableEq, Repr

/-- Cache key `type:id` of `SubtitlesCache.generateKey`. -/
def generateKey (type id : String) : String := type ++ ":" ++ id

/-- Embedding of `SubtitlesCache.get` (lazy eviction of expired entries,
miss/hit counting). -/
def scGet (st : SubtitlesCache) (now : Int) (type id : String) :
    Option (List Sub) × SubtitlesCache :=
  let key := generateKey type id
  match st.cache.lookup key with
  | none => (none, { st with misses := st.misses + 1 })
  | some item =>
    if now > item.expiry then
      (none, { st with
               cache := eraseKey key st.cache
               misses := st.misses + 1 })
    else (some item.subtitles, { st with hits := st.hits + 1 })

/-- Embedding of `SubtitlesCache.set` (a `Map.set` replaces the binding of
the key). -/
def scSet (st : SubtitlesCache) (now : Int) (type id : String)
    (subtitles : List Sub) : SubtitlesCache :=
  let key := generateKey type id
  { st with cache :=
      (key, { subtitles := subtitles, expiry := now + st.ttl, timestamp := now })
        :: eraseKey key st.cache }

/-- Embedding of `SubtitlesCache.cleanup`, the periodic sweep. -/
def scCleanup (st : SubtitlesCache) (now : Int) : SubtitlesCache :=
  { st with cache := st.cache.filter (fun e => decide (¬ now > e.2.expiry)) }

/-! ## Provider clients -/

/-- Failure of one upstream HTTP request (throttling is distinguished,
carrying the `Retry-After` header when present; every other failure mode
behaves identically in the modelled code). -/
inductive ApiErr where
  | rateLimit (retryAfter : Option String)
  | other
deriving DecidableEq, Repr

/-- A file of an OpenSubtitles search result. -/
structure OsRawFile where
  file_id : Nat
  file_name : Option String := none
deriving DecidableEq, Repr

/-- Attributes of an OpenSubtitles search result. -/
structure OsRawAttrs where
  files : List OsRawFile := []
  release : Option String := none
deriving DecidableEq, Repr

/-- One raw OpenSubtitles search result. -/
structure OsRaw where
  id : String
  attributes : OsRawAttrs := {}
deriving DecidableEq, Repr

/-- Result of `OpenSubtitlesClient.searchSubtitles`:
`{ subtitles, hashMatches }` (the JS `Set` of ids is an id list). -/
structure OsSearchResult where
  subtitles : List OsRaw
  hashMatches : List String
deriving DecidableEq, Repr

/-- `MAX_SUBTITLES` of `src/lib/opensubtitles.js` (reduced footprint). -/
def osMaxSubtitles : Nat := 5

/-- `MAX_SUBTITLES` of `src/lib/subdl.js`. -/
def subdlMaxSubtitles : Nat := 15

/-- `MAX_SUBTITLES` of `src/lib/yify.js`. -/
def yifyMaxSubtitles : Nat := 15

/-- Embedding of `OpenSubtitlesClient.searchSubtitles`: optional search by
hash (attempted only when both `videoHash` and `videoSize` are truthy,
failures swallowed), then search by IMDB id (failures, including
throttling, swallowed), hash duplicates filtered out of the IMDB results,
and the concatenation capped at `MAX_SUBTITLES`.  The two `Except`
arguments are the outcomes of the two upstream requests. -/
def osSearchSubtitles (videoHash : Option String) (videoSize : Option Int)
    (hashResp imdbResp : Except ApiErr (List OsRaw)) : OsSearchResult :=
  let hashPart : List OsRaw × List String :=
    if truthyS videoHash && truthyI videoSize then
      match hashResp with
      | .ok l => (l, l.map (fun sub => sub.id))
      | .error _ => ([], [])
    else ([], [])
  let imdbPart : List OsRaw :=
    match imdbResp with
    | .ok l => l.filter (fun sub => !(hashPart.2.contains sub.id))
    | .error _ => []
  { subtitles := (hashPart.1 ++ imdbPart).take osMaxSubtitles
    hashMatches := hashPart.2 }

/-- Embedding of `OpenSubtitlesClient.formatForStremio`: proxy URLs are
returned instead of download links; subtitles without files are skipped;
`_release` and `_hashMatch` are attached for the scorer. -/
def osFormatForStremio (searchResult : OsSearchResult) (addonUrl : String) : List Sub :=
  searchResult.subtitles.filterMap (fun sub =>
    match sub.attributes.files with
    | [] => none
    | file :: _ =>
      let releaseInfo := jsOrS sub.attributes.release "Unknown"
      let isHashMatch := searchResult.hashMatches.contains sub.id
      some { id := "[OS] " ++ (if isHashMatch then "✓ " else "") ++ releaseInfo
             url := addonUrl ++ "/proxy/os/" ++ toString file.file_id
             lang := "fre"
             iRelease := some releaseInfo
             iHashMatch := some isHashMatch })

/-- One raw SubDL search result. -/
structure SubdlRaw where
  url : Option String := none
  release_name : Option String := none
  name : Option String := none
  hi : Bool := false
deriving DecidableEq, Repr

/-- Embedding of `SubDLClient.searchSubtitles` (errors become `[]`, the
result list is capped at `MAX_SUBTITLES`). -/
def subdlSearchSubtitles (resp : Except ApiErr (List SubdlRaw)) : List SubdlRaw :=
  match resp with
  | .ok l => l.take subdlMaxSubtitles
  | .error _ => []

/-- Embedding of `SubDLClient.formatForStremio` (subtitles without a
truthy `url` are skipped). -/
def subdlFormatForStremio (subtitles : List SubdlRaw) : List Sub :=
  subtitles.filterMap (fun sub =>
    match sub.url with
    | none => none
    | some u =>
      if u.data.isEmpty then none
      else
        let releaseName := jsOrS sub.release_name (jsOrS sub.name "Unknown")
        some { id := "[SubDL] " ++ releaseName ++ (if sub.hi then " [HI]" else "")
               url := "https://dl.subdl.com" ++ u
               lang := "fre"
               iRelease := some releaseName })

/-- One raw YIFY search result. -/
structure YifyRaw where
  id : Option Int := none
  url : Option String := none
  release : Option String := none
  rating : Option Int := none
  hi : Bool := false
  langName : Option String := none
deriving DecidableEq, Repr

/-- The YIFY search payload (french subtitles sit under `fr` or
`french`). -/
structure YifyResp where
  fr : Option (List YifyRaw) := none
  french : Option (List YifyRaw) := none
deriving DecidableEq, Repr

/-- Descending order by `(b.rating || 0) - (a.rating || 0)`. -/
def yifyRatingOrder (a b : YifyRaw) : Prop := b.rating.getD 0 ≤ a.rating.getD 0

instance : DecidableRel yifyRatingOrder :=
  fun a b => inferInstanceAs (Decidable (b.rating.getD 0 ≤ a.rating.getD 0))

instance : IsTotal YifyRaw yifyRatingOrder :=
  ⟨fun a b => Int.le_total (b.rating.getD 0) (a.rating.getD 0)⟩

instance : IsTrans YifyRaw yifyRatingOrder :=
  ⟨fun _ _ _ hab hbc => Int.le_trans hbc hab⟩

/-- Embedding of `YIFYClient.searchSubtitles`: series are skipped without
a call, a missing payload and every error become `[]`, any JS array (even
empty) is truthy so `results.fr || results.french || []` prefers a
present `fr`, and the result is sorted by rating and capped. -/
def yifySearchSubtitles (type : String) (resp : Except ApiErr (Option YifyResp)) :
    List YifyRaw :=
  if type = "series" then []
  else
    match resp with
    | .error _ => []
    | .ok none => []
    | .ok (some results) =>
      let frenchSubs := match results.fr with
        | some l => l
        | none => results.french.getD []
      if frenchSubs.isEmpty then []
      else (List.insertionSort yifyRatingOrder frenchSubs).take yifyMaxSubtitles

/-- Embedding of `YIFYClient.formatForStremio` (`now` stands for the
`Date.now()` fallback of `sub.id || Date.now()`). -/
def yifyFormatForStremio (subtitles : List YifyRaw) (now : Int) : List Sub :=
  subtitles.filterMap (fun sub =>
    match sub.url with
    | none => none
    | some u =>
      if u.data.isEmpty then none
      else
        let release := jsOrS sub.release "Unknown"
        some { id := "yify-" ++ (match sub.id with
                 | some i => if i ≠ 0 then toString i else toString now
                 | none => toString now)
               url := u
               lang := "fre"
               subFileName := some (release ++ ".srt")
               iRelease := some release })

/-! ## The subtitles handler of `src/index.js` -/

/-- Which provider clients are configured (`osClient`, `subdlClient`,
`yifyClient` being non-null). -/
structure SourcesConfig where
  osOn : Bool
  subdlOn : Bool
  yifyOn : Bool
deriving DecidableEq, Repr

/-- Outcomes of the upstream requests a single handler invocation would
issue (one hash search and one IMDB search for OpenSubtitles, one search
each for SubDL and YIFY). -/
structure SearchEnv where
  osHash : Except ApiErr (List OsRaw) := .ok []
  osImdb : Except ApiErr (List OsRaw) := .ok []
  subdl : Except ApiErr (List SubdlRaw) := .ok []
  yify : Except ApiErr (Option YifyResp) := .ok none
deriving Repr

/-- Embedding of the `searchOpenSubtitles` wrapper of `src/index.js` (the
`catch` clause is unreachable: the client converts all failures
itself). -/
def searchOpenSubtitlesW (parsed : ParsedId) (env : SearchEnv) (addonUrl : String) :
    List Sub :=
  let searchResult := osSearchSubtitles parsed.videoHash parsed.videoSize
    env.osHash env.osImdb
  if searchResult.subtitles.isEmpty then []
  else osFormatForStremio searchResult addonUrl

/-- Embedding of the `searchSubDL` wrapper of `src/index.js`. -/
def searchSubDLW (env : SearchEnv) : List Sub :=
  let subtitles := subdlSearchSubtitles env.subdl
  if subtitles.isEmpty then [] else subdlFormatForStremio subtitles

/-- Embedding of the `searchYIFY` wrapper of `src/index.js`. -/
def searchYIFYW (parsed : ParsedId) (env : SearchEnv) (now : Int) : List Sub :=
  let subtitles := yifySearchSubtitles parsed.type env.yify
  if subtitles.isEmpty then [] else yifyFormatForStremio subtitles now

/-- The merged candidate set `results.flat()` in provider registration
order (OpenSubtitles, SubDL, YIFY). -/
def mergedResults (cfg : SourcesConfig) (parsed : ParsedId) (env : SearchEnv)
    (addonUrl : String) (now : Int) : List Sub :=
  ((if cfg.osOn then [searchOpenSubtitlesW parsed env addonUrl] else []) ++
   (if cfg.subdlOn then [searchSubDLW env] else []) ++
   (if cfg.yifyOn then [searchYIFYW parsed env now] else [])).flatten

/-- Number of upstream provider requests issued by one fan-out (the YIFY
client skips series without a call; the OpenSubtitles client issues a
second request when searching by hash). -/
def upstreamCallCount (cfg : SourcesConfig) (parsed : ParsedId) : Nat :=
  (if cfg.osOn then
      1 + (if truthyS parsed.videoHash && truthyI parsed.videoSize then 1 else 0)
    else 0)
  + (if cfg.subdlOn then 1 else 0)
  + (if cfg.yifyOn then (if parsed.type = "series" then 0 else 1) else 0)

/-- Arguments of a subtitles request. -/
structure HandlerArgs where
  type : String
  id : String
  extra : Option Extra := none
deriving DecidableEq, Repr

/-- Observable outcome of one handler invocation: the response list, the
updated search-result cache, and how many upstream provider requests were
issued. -/
structure HandlerOut where
  subtitles : List Sub
  cache : SubtitlesCache
  upstreamCalls : Nat
deriving DecidableEq, Repr

/-- Embedding of the subtitles handler of `src/index.js` (the current
`defineSubtitlesHandler`): parse the id, serve from `SubtitlesCache` when
possible (re-ranking the cached list when file info is present), else fan
out to every configured provider, cache the merged set (even when empty)
and return it ranked. -/
def handleSubtitles (cfg : SourcesConfig) (env : SearchEnv) (addonUrl : String)
    (now : Int) (st : SubtitlesCache) (args : HandlerArgs) : HandlerOut :=
  let parsed := parseId args.id args.type (args.extra.getD {})
  match parsed.imdbId with
  | none => { subtitles := [], cache := st, upstreamCalls := 0 }
  | some _ =>
    let cacheKey := args.id
    let got := scGet st now args.type cacheKey
    match got.1 with
    | some cachedSubtitles =>
      if truthyS parsed.filename || truthyS parsed.videoHash then
        { subtitles := sortSubtitlesByMatch cachedSubtitles parsed
          cache := got.2, upstreamCalls := 0 }
      else { subtitles := cachedSubtitles, cache := got.2, upstreamCalls := 0 }
    | none =>
      let allSubtitles := mergedResults cfg parsed env addonUrl now
      let st2 := scSet got.2 now args.type cacheKey allSubtitles
      if allSubtitles.isEmpty then
        { subtitles := [], cache := st2, upstreamCalls := upstreamCallCount cfg parsed }
      else
        { subtitles := sortSubtitlesByMatch allSubtitles parsed, cache := st2
          upstreamCalls := upstreamCallCount cfg parsed }

/-! ## Durable availability cache (`src/lib/cache.js`) -/

/-- A stored availability entry. -/
structure PCEntry where
  available : Bool
  count : Int
  checkedAt : Int
  expiresAt : Int
deriving DecidableEq, Repr

/-- The `{ available, count }` projection returned by `get`. -/
structure PCData where
  available : Bool
  count : Int
deriving DecidableEq, Repr

/-- In-memory state of `PersistentCache` (file persistence is outside the
model: `load`/`save` only move `data` across restarts). -/
structure PersistentCache where
  data : List (String × PCEntry) := []
  ttl : Int
  dirty : Bool := false
deriving DecidableEq, Repr

/-- `DEFAULT_TTL` of `src/lib/cache.js`: 7 days in milliseconds. -/
def pcDefaultTTL : Int := 7 * 24 * 60 * 60 * 1000

/-- Embedding of `PersistentCache.get`: a missing entry is a miss; an
entry with `now > expiresAt` is deleted (lazy eviction) and is a miss; a
valid entry yields its `{ available, count }` projection. -/
def pcGet (st : PersistentCache) (now : Int) (imdbId : String) :
    Option PCData × PersistentCache :=
  match st.data.lookup imdbId with
  | none => (none, st)
  | some entry =>
    if now > entry.expiresAt then
      (none, { st with
               data := eraseKey imdbId st.data
               dirty := true })
    else (some { available := entry.available, count := entry.count }, st)

/-- Embedding of `PersistentCache.set`. -/
def pcSet (st : PersistentCache) (now : Int) (imdbId : String) (d : PCData) :
    PersistentCache :=
  { st with
    data := (imdbId,
        { available := d.available
          count := d.count
          checkedAt := now
          expiresAt := now + st.ttl })
      :: eraseKey imdbId st.data
    dirty := true }

/-- Embedding of `PersistentCache.cleanup`, the periodic sweep. -/
def pcCleanup (st : PersistentCache) (now : Int) : PersistentCache :=
  let kept := st.data.filter (fun e => decide (¬ now > e.2.expiresAt))
  { st with data := kept, dirty := st.dirty || decide (kept.length ≠ st.data.length) }

/-! ## Availability checker (`src/lib/subtitle-checker.js`) -/

/-- The two rate-limit-tracked sources of `SubtitleChecker`. -/
inductive CheckerSource where
  | os
  | subdl
deriving DecidableEq, Repr

/-- The `rateLimitedUntil` table (both keys start at 0). -/
structure CheckerState where
  osUntil : Int := 0
  subdlUntil : Int := 0
deriving DecidableEq, Repr

/-- Lookup in the `rateLimitedUntil` table. -/
def rlUntil (st : CheckerState) : CheckerSource → Int
  | .os => st.osUntil
  | .subdl => st.subdlUntil

/-- `DEFAULT_RATE_LIMIT_DURATION`: 5 minutes in milliseconds. -/
def defaultRateLimitDuration : Int := 5 * 60 * 1000

/-- Embedding of `SubtitleChecker.isRateLimited`. -/
def isRateLimited (st : CheckerState) (now : Int) (source : CheckerSource) : Bool :=
  now < rlUntil st source

/-- Embedding of `SubtitleChecker.setRateLimited`: the JS guard is
`seconds ? seconds * 1000 : DEFAULT_RATE_LIMIT_DURATION`, so a missing,
zero or NaN `seconds` (NaN folded into `none`) all fall back to the
default duration. -/
def setRateLimited (st : CheckerState) (now : Int) (source : CheckerSource)
    (seconds : Option Int) : CheckerState :=
  let duration := match seconds with
    | some s => if s ≠ 0 then s * 1000 else defaultRateLimitDuration
    | none => defaultRateLimitDuration
  match source with
  | .os => { st with osUntil := now + duration }
  | .subdl => { st with subdlUntil := now + duration }

/-- Outcome of one availability probe request: a network/timeout failure,
or an HTTP response with its status, `Retry-After` header and the
subtitle count of its payload. -/
inductive CheckResp where
  | netError
  | status (code : Int) (retryAfter : Option String) (count : Int)
deriving DecidableEq, Repr

/-- Embedding of `SubtitleChecker._checkOpenSubtitles`: a 429 stores the
(parsed) suggested delay into the rate-limit table and contributes
nothing, any other non-2xx or a network error contributes nothing, a
success contributes `{ available, count }`. -/
def checkOpenSubtitlesM (st : CheckerState) (now : Int) (resp : CheckResp) :
    Option PCData × CheckerState :=
  match resp with
  | .netError => (none, st)
  | .status code retryAfter count =>
    if code = 429 then
      (none, setRateLimited st now .os (match retryAfter with
        | some h => if h.data.isEmpty then none else jsParseInt h
        | none => none))
    else if code < 200 ∨ 300 ≤ code then (none, st)
    else (some { available := decide (count > 0), count := count }, st)

/-- Embedding of `SubtitleChecker._checkSubDL` (a 429 applies the default
cooldown: no suggested delay is read). -/
def checkSubDLM (st : CheckerState) (now : Int) (resp : CheckResp) :
    Option PCData × CheckerState :=
  match resp with
  | .netError => (none, st)
  | .status code _ count =>
    if code = 429 then (none, setRateLimited st now .subdl none)
    else if code < 200 ∨ 300 ≤ code then (none, st)
    else (some { available := decide (count > 0), count := count }, st)

/-- Which API keys the checker was configured with. -/
structure CheckerCfg where
  hasOsKey : Bool
  hasSubdlKey : Bool
deriving DecidableEq, Repr

/-- Compiled result of `SubtitleChecker.checkAll`. -/
structure CheckAllOut where
  available : Bool
  count : Int
  osSource : Option PCData
  subdlSource : Option PCData
deriving DecidableEq, Repr

/-- Observable run of `checkAll`: the compiled result, the final
rate-limit state and the number of network calls issued per source. -/
structure CheckAllRun where
  out : CheckAllOut
  state : CheckerState
  osCalls : Nat
  subdlCalls : Nat
deriving DecidableEq, Repr

/-- Embedding of `SubtitleChecker.checkAll`: eligibility of both sources
is decided up front against the same state (the promises are built before
any response arrives); an ineligible or unconfigured source contributes
`null` with no network call; `result && result.count` guards the total. -/
def checkAll (cfg : CheckerCfg) (st : CheckerState) (now : Int)
    (osResp subdlResp : CheckResp) : CheckAllRun :=
  let osEligible := cfg.hasOsKey && !isRateLimited st now .os
  let subdlEligible := cfg.hasSubdlKey && !isRateLimited st now .subdl
  let osOut := if osEligible then checkOpenSubtitlesM st now osResp else (none, st)
  let subdlOut := if subdlEligible then checkSubDLM osOut.2 now subdlResp
    else (none, osOut.2)
  let totalCount : Int :=
    (match osOut.1 with
      | some r => if r.count ≠ 0 then r.count else 0
      | none => 0)
    + (match subdlOut.1 with
      | some r => if r.count ≠ 0 then r.count else 0
      | none => 0)
  { out := { available := decide (totalCount > 0), count := totalCount
             osSource := osOut.1, subdlSource := subdlOut.1 }
    state := subdlOut.2
    osCalls := if osEligible then 1 else 0
    subdlCalls := if subdlEligible then 1 else 0 }

/-! ## Resolution failure and the proxy route -/

/-- Failure of the download-link resolution (`RateLimitError` keeps the
raw `Retry-After` header). -/
inductive RErr where
  | rateLimit (retryAfter : Option String)
  | generic
deriving DecidableEq, Repr

/-- An HTTP response of the proxy route, reduced to its observable
parts. -/
structure HttpResp where
  status : Nat
  retryAfter : Option String := none
  redirect : Option String := none
  body : String := ""
deriving DecidableEq, Repr

/-- The `^\d+$` file-id check of the proxy route. -/
def isNumericStr (s : String) : Bool := !s.data.isEmpty && s.data.all Char.isDigit

/-- Embedding of the `GET /proxy/os/:fileId` route of `src/index.js`,
parametrized by the outcome of `getDownloadLink`: invalid ids get 400, a
missing client 503, a throttled resolution 429 with the retry hint when
truthy, any other failure 500, a missing link 404, a link a redirect. -/
def proxyOsRoute (osConfigured : Bool) (fileId : String)
    (resolveOutcome : Except RErr (Option String)) : HttpResp :=
  if !isNumericStr fileId then { status := 400, body := "Invalid file ID" }
  else if !osConfigured then { status := 503, body := "OpenSubtitles not configured" }
  else
    match resolveOutcome with
    | .ok (some u) =>
      if u.data.isEmpty then { status := 404, body := "Subtitle not found" }
      else { status := 302, redirect := some u }
    | .ok none => { status := 404, body := "Subtitle not found" }
    | .error (.rateLimit retryAfter) =>
      { status := 429
        retryAfter := if truthyS retryAfter then retryAfter else none
        body := "Rate limit exceeded. Please try again later." }
    | .error .generic => { status := 500, body := "Internal server error" }

/-! ## Single-flight download-link resolution
(`OpenSubtitlesClient.getDownloadLink` / `_fetchDownloadLink`)

JS is single-threaded and runs code between `await`s atomically, so
`getDownloadLink` is modelled as a transition system whose atomic steps
are: the synchronous prefix of one call (cache probe, in-flight probe,
promise creation and registration) as one step, and the settlement of an
upstream request together with the microtask drain that resumes every
awaiting caller (each running its `finally` that deletes the
`pendingDownloads` entry) as one step — between a promise settling and
those continuations running, no other JS code executes.  Each created
promise is one upstream `/download` call; a promise with status `pending`
is an upstream call in flight. -/

deriving instance DecidableEq for Except

/-- Status of one upstream `/download` promise. -/
inductive PromStatus where
  | pending
  | settled (r : Except RErr (Option String))
deriving DecidableEq, Repr

/-- A promise of the registry: the file id it resolves and its status. -/
structure Prom where
  fid : Nat
  status : PromStatus
deriving DecidableEq, Repr

/-- Status of one caller of `getDownloadLink`: not yet run, awaiting a
shared promise, or completed (`done none r` when served from the link
cache, `done (some pid) r` when resumed by promise `pid`). -/
inductive TaskStatus where
  | ready
  | waiting (pid : Nat)
  | done (pid : Option Nat) (r : Except RErr (Option String))
deriving DecidableEq, Repr

/-- One caller of `getDownloadLink` for file id `fid`. -/
structure SFTask where
  fid : Nat
  status : TaskStatus
deriving DecidableEq, Repr

/-- Shared state of the client: the link cache (`downloadCache`), the
in-flight registry (`pendingDownloads`), the promise registry, a fresh
promise counter, and the callers. -/
structure SFState where
  now : Int
  cache : List (Nat × (String × Int))
  pend : List (Nat × Nat)
  proms : List (Nat × Prom)
  nextPid : Nat
  tasks : List SFTask
deriving DecidableEq, Repr

/-- `CACHE_TTL` of `src/lib/opensubtitles.js`: 3 hours in milliseconds. -/
def osCacheTTL : Int := 3 * 60 * 60 * 1000

/-- `SimpleCache.get` with its lazy eviction of an expired entry. -/
def sfCacheGet (now : Int) (cache : List (Nat × (String × Int))) (fid : Nat) :
    Option String × List (Nat × (String × Int)) :=
  match cache.lookup fid with
  | none => (none, cache)
  | some (v, expiry) =>
    if now > expiry then (none, eraseKey fid cache)
    else (some v, cache)

/-- The in-flight probe of `getDownloadLink`: await the registered promise
when one exists, else create and register a fresh promise (starting the
upstream call) and await it. -/
def sfAttach (s : SFState) (i : Nat) (fid : Nat) : SFState :=
  match s.pend.lookup fid with
  | some pid => { s with tasks := s.tasks.set i ⟨fid, .waiting pid⟩ }
  | none =>
    { s with
      pend := (fid, s.nextPid) :: s.pend
      proms := (s.nextPid, ⟨fid, .pending⟩) :: s.proms
      nextPid := s.nextPid + 1
      tasks := s.tasks.set i ⟨fid, .waiting s.nextPid⟩ }

/-- The synchronous prefix of `getDownloadLink` for caller `i`: probe the
link cache first (a truthy hit returns immediately), then the in-flight
registry. -/
def runTask (s : SFState) (i : Nat) (fid : Nat) : SFState :=
  let got := sfCacheGet s.now s.cache fid
  match got.1 with
  | some cached =>
    if cached.data.isEmpty then sfAttach { s with cache := got.2 } i fid
    else { s with
           cache := got.2
           tasks := s.tasks.set i ⟨fid, .done none (.ok (some cached))⟩ }
  | none => sfAttach { s with cache := got.2 } i fid

/-- Settlement of promise `pid` (for file id `fid`) with outcome `r`,
fused with the microtask drain: a truthy link is written to the cache
(`SimpleCache.set` replaces the binding), every caller awaiting `pid`
completes with `r`, and their `finally` blocks delete the
`pendingDownloads` entry of `fid`. -/
def settleProm (s : SFState) (pid : Nat) (fid : Nat)
    (r : Except RErr (Option String)) : SFState :=
  { s with
    proms := s.proms.map (fun e => if e.1 = pid then (pid, ⟨fid, .settled r⟩) else e)
    cache := match r with
      | .ok (some link) =>
        if link.data.isEmpty then s.cache
        else (fid, (link, s.now + osCacheTTL)) :: eraseKey fid s.cache
      | _ => s.cache
    pend := eraseKey fid s.pend
    tasks := s.tasks.map (fun t =>
      if t.status = .waiting pid then { t with status := .done (some pid) r } else t) }

/-- Atomic steps of the resolution subsystem: time advances, a caller
arrives, a caller runs its synchronous prefix, or an upstream call
settles (resuming all its awaiting callers). -/
inductive SFStep : SFState → SFState → Prop where
  | tick (s : SFState) (d : Nat) : SFStep s { s with now := s.now + d }
  | spawn (s : SFState) (fid : Nat) :
      SFStep s { s with tasks := s.tasks ++ [⟨fid, .ready⟩] }
  | run (s : SFState) (i : Nat) (t : SFTask) (hget : s.tasks[i]? = some t)
      (hready : t.status = .ready) : SFStep s (runTask s i t.fid)
  | settle (s : SFState) (pid : Nat) (p : Prom) (hget : s.proms.lookup pid = some p)
      (hpending : p.status = .pending) (r : Except RErr (Option String)) :
      SFStep s (settleProm s pid p.fid r)

/-- The client right after construction: empty cache, empty registries,
no callers. -/
def sfInit : SFState :=
  { now := 0, cache := [], pend := [], proms := [], nextPid := 0, tasks := [] }

/-- States reachable from the freshly constructed client. -/
inductive SFReach : SFState → Prop where
  | init : SFReach sfInit
  | step {s s' : SFState} : SFReach s → SFStep s s' → SFReach s'

/-- Promise `pid` is an upstream `/download` call in flight for `fid`. -/
def InFlight (s : SFState) (fid pid : Nat) : Prop :=
  (pid, Prom.mk fid .pending) ∈ s.proms

/-- The non-hash scoring formula exactly as the specification words it
(claim C3), stated over the two parsed sides: 40/20/15/10 factor bonuses
when both sides carry the factor and it matches, plus the number of
common tokens capped at 5.  Both parsed groups are stored uppercased by
`parseReleaseName`, so equality of the parsed groups is precisely the
case-insensitive match of the raw group tokens. -/
def claimedScoreFormula (vi si : ReleaseInfo) : Nat :=
  (if vi.group.isSome ∧ si.group.isSome ∧ vi.group = si.group then 40 else 0)
  + (if vi.quality.isSome ∧ si.quality.isSome ∧ vi.quality = si.quality then 20 else 0)
  + (if vi.source.isSome ∧ si.source.isSome ∧ vi.source = si.source then 15 else 0)
  + (if vi.codec.isSome ∧ si.codec.isSome ∧ vi.codec = si.codec then 10 else 0)
  + min (commonTokenCount (vi.normalized.getD "") (si.normalized.getD "")) 5

/-! ## Concrete fixtures used by witnesses and counterexamples -/

/-- All three providers configured. -/
def allSources : SourcesConfig := { osOn := true, subdlOn := true, yifyOn := true }

/-- A fresh `SubtitlesCache` with the default 24h TTL. -/
def freshScCache : SubtitlesCache := { ttl := 24 * 60 * 60 * 1000 }

/-- A well-formed OpenSubtitles raw result. -/
def fixOsRaw : OsRaw :=
  { id := "o1", attributes := { files := [{ file_id := 11 }], release := some "Rel" } }

/-- A well-formed SubDL raw result. -/
def fixSubdlRaw : SubdlRaw := { url := some "/u.zip", release_name := some "Rel" }

/-- A well-formed YIFY raw result. -/
def fixYifyRaw : YifyRaw :=
  { id := some 3, url := some "http://y", release := some "Rel", rating := some 1 }

/-- An environment where SubDL and YIFY both return 20 raw candidates and
OpenSubtitles returns 20 by IMDB search. -/
def overflowEnv : SearchEnv :=
  { osHash := .ok []
    osImdb := .ok (List.replicate 20 fixOsRaw)
    subdl := .ok (List.replicate 20 fixSubdlRaw)
    yify := .ok (some { fr := some (List.replicate 20 fixYifyRaw) }) }

/-- An environment where every provider request fails outright. -/
def allFailEnv : SearchEnv :=
  { osHash := .error .other
    osImdb := .error (.rateLimit (some "9"))
    subdl := .error .other
    yify := .error .other }

/-- A plain movie request without file info. -/
def movieArgs : HandlerArgs := { type := "movie", id := "tt0000001" }

/-- A stored availability entry that expires at time 5. -/
def pcFixEntry : PCEntry := { available := true, count := 2, checkedAt := 0, expiresAt := 5 }

/-- A one-entry availability store with the default TTL. -/
def pcFixStore : PersistentCache := { data := [("tt9", pcFixEntry)], ttl := pcDefaultTTL }

/-- An empty availability store with the default TTL. -/
def pcEmptyStore : PersistentCache := { data := [], ttl := pcDefaultTTL }

/-- A fresh availability summary. -/
def pcFixData : PCData := { available := true, count := 3 }

/-- Resolution subsystem: one caller spawned for file id 7. -/
def sfw1 : SFState := { sfInit with tasks := sfInit.tasks ++ [⟨7, .ready⟩] }

/-- Resolution subsystem: a second caller spawned for file id 7. -/
def sfw2 : SFState := { sfw1 with tasks := sfw1.tasks ++ [⟨7, .ready⟩] }

/-- Resolution subsystem: the first caller ran (starting the upstream
call as promise 0). -/
def sfw3 : SFState := runTask sfw2 0 7

/-- Resolution subsystem: the second caller ran (coalescing onto
promise 0). -/
def sfw4 : SFState := runTask sfw3 1 7

/-- A successful resolution outcome. -/
def sfResOk : Except RErr (Option String) := .ok (some "http://dl")

/-- Resolution subsystem: promise 0 settled, both callers resumed. -/
def sfw5 : SFState := settleProm sfw4 0 7 sfResOk

/-! ## Association-list lemmas (JS `Map`s and plain-object tables) -/

theorem lookup_cons_self {α β : Type} [BEq α] [LawfulBEq α] (a : α) (b : β)
    (l : List (α × β)) : ((a, b) :: l).lookup a = some b := by
  simp [List.lookup_cons]

theorem lookup_cons_ne {α β : Type} [BEq α] [LawfulBEq α] {a k : α} (h : k ≠ a)
    (b : β) (l : List (α × β)) : ((a, b) :: l).lookup k = l.lookup k := by
  have hb : (k == a) = false := by
    simpa using h
  simp [List.lookup_cons, hb]

theorem lookup_eraseKey_self {α β : Type} [BEq α] [LawfulBEq α] [DecidableEq α]
    (l : List (α × β)) (k : α) : (eraseKey k l).lookup k = none := by
  induction l with
  | nil => rfl
  | cons e t ih =>
    rcases e with ⟨a, b⟩
    rw [eraseKey]
    by_cases h : a = k
    · simpa [h] using ih
    · rw [if_neg h, lookup_cons_ne (fun hk => h hk.symm) b]
      exact ih

theorem lookup_eraseKey_other {α β : Type} [BEq α] [LawfulBEq α] [DecidableEq α]
    (l : List (α × β)) {k k' : α} (hne : k' ≠ k) :
    (eraseKey k l).lookup k' = l.lookup k' := by
  induction l with
  | nil => rfl
  | cons e t ih =>
    rcases e with ⟨a, b⟩
    rw [eraseKey]
    by_cases h : a = k
    · rw [if_pos h, ih, lookup_cons_ne (h ▸ hne) b]
    · rw [if_neg h]
      by_cases h2 : k' = a
      · subst h2
        rw [lookup_cons_self, lookup_cons_self]
      · rw [lookup_cons_ne h2 b, lookup_cons_ne h2 b, ih]

theorem lookup_mem {α β : Type} [BEq α] [LawfulBEq α] {l : List (α × β)} {k : α}
    {v : β} (h : l.lookup k = some v) : (k, v) ∈ l := by
  induction l with
  | nil => simp at h
  | cons e t ih =>
    rcases e with ⟨a, b⟩
    by_cases hk : k = a
    · subst hk
      rw [lookup_cons_self] at h
      cases h
      exact List.mem_cons_self _ _
    · rw [lookup_cons_ne hk b] at h
      exact List.mem_cons_of_mem _ (ih h)

theorem mem_lookup_of_nodup_keys {α β : Type} [BEq α] [LawfulBEq α]
    {l : List (α × β)} (hnd : (l.map Prod.fst).Nodup) {k : α} {v : β}
    (h : (k, v) ∈ l) : l.lookup k = some v := by
  induction l with
  | nil => simp at h
  | cons e t ih =>
    rcases e with ⟨a, b⟩
    rw [List.map_cons, List.nodup_cons] at hnd
    rcases List.mem_cons.mp h with heq | hmem
    · cases heq
      exact lookup_cons_self _ _ _
    · have hka : k ≠ a := by
        intro hk
        apply hnd.1
        have hm := List.mem_map_of_mem Prod.fst hmem
        simpa [hk] using hm
      rw [lookup_cons_ne hka b]
      exact ih hnd.2 hmem

theorem lookup_map_replace_self {β : Type} {l : List (Nat × β)} {pid : Nat}
    {p : β} (x : β) (h : l.lookup pid = some p) :
    (l.map (fun e => if e.1 = pid then (pid, x) else e)).lookup pid = some x := by
  induction l with
  | nil => simp at h
  | cons e t ih =>
    rcases e with ⟨a, b⟩
    rw [List.map_cons]
    by_cases hk : a = pid
    · simp only [hk, if_true]
      rw [lookup_cons_self]
    · simp only [hk, if_false]
      rw [lookup_cons_ne (fun hp => hk hp.symm) b] at h
      rw [lookup_cons_ne (fun hp => hk hp.symm) b]
      exact ih h

theorem lookup_map_replace_other {β : Type} (l : List (Nat × β)) {pid q : Nat}
    (hne : q ≠ pid) (x : β) :
    (l.map (fun e => if e.1 = pid then (pid, x) else e)).lookup q = l.lookup q := by
  induction l with
  | nil => rfl
  | cons e t ih =>
    rcases e with ⟨a, b⟩
    rw [List.map_cons]
    by_cases hk : a = pid
    · simp only [hk, if_true]
      rw [lookup_cons_ne hne x, lookup_cons_ne (hk ▸ hne) b, ih]
    · simp only [hk, if_false]
      by_cases h2 : q = a
      · subst h2
        rw [lookup_cons_self, lookup_cons_self]
      · rw [lookup_cons_ne h2 b, lookup_cons_ne h2 b, ih]

theorem map_replace_keys {β : Type} (l : List (Nat × β)) (pid : Nat) (x : β) :
    (l.map (fun e => if e.1 = pid then (pid, x) else e)).map Prod.fst
      = l.map Prod.fst := by
  induction l with
  | nil => rfl
  | cons e t ih =>
    rcases e with ⟨a, b⟩
    by_cases hk : a = pid
    · simp only [List.map_cons, hk, if_true]
      rw [ih]
    · simp only [List.map_cons, hk, if_false]
      rw [ih]

/-! ## The single-flight invariant -/

/-- Inductive invariant of the resolution subsystem:
registered in-flight entries point at pending promises of the same file
id and vice versa, waiting callers await pending promises of their own
file id, completed callers agree with the settled value of their promise,
and promise ids are fresh and unique. -/
structure SFInv (s : SFState) : Prop where
  pendProm : ∀ fid pid, s.pend.lookup fid = some pid →
    s.proms.lookup pid = some ⟨fid, .pending⟩
  promPend : ∀ pid fid, s.proms.lookup pid = some ⟨fid, .pending⟩ →
    s.pend.lookup fid = some pid
  waitProm : ∀ t, t ∈ s.tasks → ∀ pid, t.status = .waiting pid →
    s.proms.lookup pid = some ⟨t.fid, .pending⟩
  doneProm : ∀ t, t ∈ s.tasks → ∀ pid r, t.status = .done (some pid) r →
    ∃ fid, s.proms.lookup pid = some ⟨fid, .settled r⟩
  promFresh : ∀ e, e ∈ s.proms → e.1 < s.nextPid
  promKeys : (s.proms.map Prod.fst).Nodup

theorem sfInv_init : SFInv sfInit := by
  refine ⟨?_, ?_, ?_, ?_, ?_, ?_⟩ <;> intros <;> simp_all [sfInit, List.lookup]

theorem sfInv_cache (s : SFState) (cache' : List (Nat × (String × Int)))
    (h : SFInv s) : SFInv { s with cache := cache' } :=
  ⟨h.pendProm, h.promPend, h.waitProm, h.doneProm, h.promFresh, h.promKeys⟩

theorem sfInv_attach (s : SFState) (i fid : Nat) (h : SFInv s) :
    SFInv (sfAttach s i fid) := by
  rw [sfAttach]
  cases hp : s.pend.lookup fid with
  | some pid =>
    refine ⟨h.pendProm, h.promPend, ?_, ?_, h.promFresh, h.promKeys⟩
    · intro t ht pid' hw
      rcases List.mem_or_eq_of_mem_set ht with hmem | hnew
      · exact h.waitProm t hmem pid' hw
      · subst hnew
        cases hw
        exact h.pendProm fid pid hp
    · intro t ht pid' r hd
      rcases List.mem_or_eq_of_mem_set ht with hmem | hnew
      · exact h.doneProm t hmem pid' r hd
      · subst hnew
        cases hd
  | none =>
    refine ⟨?_, ?_, ?_, ?_, ?_, ?_⟩
    · intro fid' pid' hlk
      by_cases hf : fid' = fid
      · subst hf
        rw [lookup_cons_self] at hlk
        cases hlk
        exact lookup_cons_self _ _ _
      · rw [lookup_cons_ne hf] at hlk
        have hold := h.pendProm fid' pid' hlk
        have hne : pid' ≠ s.nextPid :=
          Nat.ne_of_lt (h.promFresh _ (lookup_mem hold))
        rw [lookup_cons_ne hne]
        exact hold
    · intro pid' fid' hlk
      by_cases hq : pid' = s.nextPid
      · subst hq
        rw [lookup_cons_self] at hlk
        cases hlk
        exact lookup_cons_self _ _ _
      · rw [lookup_cons_ne hq] at hlk
        have hold := h.promPend pid' fid' hlk
        have hf : fid' ≠ fid := by
          intro hf
          subst hf
          rw [hp] at hold
          cases hold
        rw [lookup_cons_ne hf]
        exact hold
    · intro t ht pid' hw
      rcases List.mem_or_eq_of_mem_set ht with hmem | hnew
      · have hold := h.waitProm t hmem pid' hw
        have hne : pid' ≠ s.nextPid :=
          Nat.ne_of_lt (h.promFresh _ (lookup_mem hold))
        rw [lookup_cons_ne hne]
        exact hold
      · subst hnew
        cases hw
        exact lookup_cons_self _ _ _
    · intro t ht pid' r hd
      rcases List.mem_or_eq_of_mem_set ht with hmem | hnew
      · obtain ⟨fid'', hold⟩ := h.doneProm t hmem pid' r hd
        have hne : pid' ≠ s.nextPid :=
          Nat.ne_of_lt (h.promFresh _ (lookup_mem hold))
        exact ⟨fid'', by rw [lookup_cons_ne hne]; exact hold⟩
      · subst hnew
        cases hd
    · intro e he
      rcases List.mem_cons.mp he with heq | hmem
      · subst heq
        exact Nat.lt_succ_self _
      · exact Nat.lt_succ_of_lt (h.promFresh e hmem)
    · rw [List.map_cons, List.nodup_cons]
      refine ⟨?_, h.promKeys⟩
      intro hmem
      obtain ⟨e, hel, hek⟩ := List.mem_map.mp hmem
      exact absurd (hek ▸ h.promFresh e hel) (Nat.lt_irrefl _)

theorem sfInv_run (s : SFState) (i fid : Nat) (h : SFInv s) :
    SFInv (runTask s i fid) := by
  rw [runTask]
  cases hc : (sfCacheGet s.now s.cache fid).1 with
  | some cached =>
    by_cases hce : cached.data.isEmpty
    · simp only [hce, if_true]
      exact sfInv_attach _ i fid (sfInv_cache s _ h)
    · simp only [hce, if_false]
      refine ⟨h.pendProm, h.promPend, ?_, ?_, h.promFresh, h.promKeys⟩
      · intro t ht pid' hw
        rcases List.mem_or_eq_of_mem_set ht with hmem | hnew
        · exact h.waitProm t hmem pid' hw
        · subst hnew
          cases hw
      · intro t ht pid' r hd
        rcases List.mem_or_eq_of_mem_set ht with hmem | hnew
        · exact h.doneProm t hmem pid' r hd
        · subst hnew
          cases hd
  | none => exact sfInv_attach _ i fid (sfInv_cache s _ h)

theorem sfInv_settle (s : SFState) (pid : Nat) (fid : Nat)
    (hget : s.proms.lookup pid = some ⟨fid, .pending⟩)
    (r : Except RErr (Option String)) (h : SFInv s) :
    SFInv (settleProm s pid fid r) := by
  refine ⟨?_, ?_, ?_, ?_, ?_, ?_⟩ <;> simp only [settleProm]
  · intro fid' pid' hlk
    have hf : fid' ≠ fid := by
      intro he
      subst he
      rw [lookup_eraseKey_self] at hlk
      cases hlk
    rw [lookup_eraseKey_other _ hf] at hlk
    have hold := h.pendProm fid' pid' hlk
    have hq : pid' ≠ pid := by
      intro he
      subst he
      rw [hget] at hold
      cases hold
      exact hf rfl
    rw [lookup_map_replace_other _ hq]
    exact hold
  · intro pid' fid' hlk
    by_cases hq : pid' = pid
    · subst hq
      rw [lookup_map_replace_self (⟨fid, .settled r⟩ : Prom) hget] at hlk
      cases hlk
    · rw [lookup_map_replace_other _ hq] at hlk
      have hold := h.promPend pid' fid' hlk
      have hf : fid' ≠ fid := by
        intro he
        rw [he] at hold
        have h2 := (h.promPend pid fid hget).symm.trans hold
        exact hq (Option.some.inj h2).symm
      rw [lookup_eraseKey_other _ hf]
      exact hold
  · intro t' ht' pid' hw
    obtain ⟨t, htl, hft⟩ := List.mem_map.mp ht'
    by_cases hts : t.status = .waiting pid
    · rw [if_pos hts] at hft
      subst hft
      cases hw
    · rw [if_neg hts] at hft
      subst hft
      have hq : pid' ≠ pid := by
        intro he
        subst he
        exact hts hw
      rw [lookup_map_replace_other _ hq]
      exact h.waitProm t htl pid' hw
  · intro t' ht' pid' r' hd
    obtain ⟨t, htl, hft⟩ := List.mem_map.mp ht'
    by_cases hts : t.status = .waiting pid
    · rw [if_pos hts] at hft
      subst hft
      cases hd
      exact ⟨fid, lookup_map_replace_self _ hget⟩
    · rw [if_neg hts] at hft
      subst hft
      obtain ⟨fid'', hold⟩ := h.doneProm t htl pid' r' hd
      have hq : pid' ≠ pid := by
        intro he
        subst he
        rw [hget] at hold
        cases hold
      exact ⟨fid'', by rw [lookup_map_replace_other _ hq]; exact hold⟩
  · intro e he
    obtain ⟨e0, he0, hfe⟩ := List.mem_map.mp he
    have : e.1 = e0.1 := by
      by_cases h0 : e0.1 = pid
      · rw [if_pos h0] at hfe
        subst hfe
        exact h0.symm
      · rw [if_neg h0] at hfe
        rw [hfe]
    rw [this]
    exact h.promFresh e0 he0
  · show ((s.proms.map _).map Prod.fst).Nodup
    rw [map_replace_keys]
    exact h.promKeys

/-- Preservation of the invariant along every atomic step. -/
theorem sfInv_step {s s' : SFState} (h : SFInv s) (hstep : SFStep s s') :
    SFInv s' := by
  cases hstep with
  | tick d =>
    exact ⟨h.pendProm, h.promPend, h.waitProm, h.doneProm, h.promFresh, h.promKeys⟩
  | spawn fid =>
    refine ⟨h.pendProm, h.promPend, ?_, ?_, h.promFresh, h.promKeys⟩
    · intro t ht pid hw
      rcases List.mem_append.mp ht with hmem | hnew
      · exact h.waitProm t hmem pid hw
      · rcases List.mem_singleton.mp hnew with rfl
        cases hw
    · intro t ht pid r hd
      rcases List.mem_append.mp ht with hmem | hnew
      · exact h.doneProm t hmem pid r hd
      · rcases List.mem_singleton.mp hnew with rfl
        cases hd
  | run i t hget hready => exact sfInv_run s i t.fid h
  | settle pid p hget hpending r =>
    obtain ⟨fid, pstatus⟩ := p
    cases hpending
    exact sfInv_settle s pid fid hget r h

/-- Every reachable state of the client satisfies the invariant. -/
theorem sfReach_inv {s : SFState} (h : SFReach s) : SFInv s := by
  induction h with
  | init => exact sfInv_init
  | step _ hstep ih => exact sfInv_step ih hstep

/-! ## Parsed fields are never the empty string -/

theorem groupFromName_ne_empty {s g : String} (h : groupFromName s = some g) :
    g.data.isEmpty = false := by
  cases h1 : splitAtLast '-' s.data with
  | none =>
    simp only [groupFromName, h1] at h
    exact Option.noConfusion h
  | some ab =>
    obtain ⟨a, tail⟩ := ab
    cases h2 : splitAtLast '.' tail with
    | none =>
      simp only [groupFromName, h1, h2] at h
      split at h
      · next hcond =>
        cases h
        simp only [Bool.and_eq_true, Bool.not_eq_true'] at hcond
        cases tail with
        | nil => cases hcond.1
        | cons c cs => rfl
      · exact Option.noConfusion h
    | some we =>
      obtain ⟨w, e⟩ := we
      simp only [groupFromName, h1, h2] at h
      split at h
      · next hcond =>
        cases h
        simp only [Bool.and_eq_true, Bool.not_eq_true'] at hcond
        cases w with
        | nil => cases hcond.1.1.1.1
        | cons c cs => rfl
      · exact Option.noConfusion h

theorem qualityFromName_ne_empty {s q : String} (h : qualityFromName s = some q) :
    q.data.isEmpty = false := by
  rw [qualityFromName] at h
  split_ifs at h <;> cases h <;> rfl

theorem sourceFromName_ne_empty {s q : String} (h : sourceFromName s = some q) :
    q.data.isEmpty = false := by
  rw [sourceFromName] at h
  split_ifs at h <;> cases h <;> rfl

theorem codecFromName_ne_empty {s q : String} (h : codecFromName s = some q) :
    q.data.isEmpty = false := by
  rw [codecFromName] at h
  split_ifs at h <;> cases h <;> rfl

theorem normalizeName_ne_empty {f : String} (hf : f.data.isEmpty = false) :
    (normalizeName f).data.isEmpty = false := by
  rw [normalizeName]
  cases hd : f.data with
  | nil => rw [hd] at hf; cases hf
  | cons c cs => rfl

theorem parse_group_ne_empty {o : Option String} {g : String}
    (h : (parseReleaseName o).group = some g) : g.data.isEmpty = false := by
  cases o with
  | none => cases h
  | some f =>
    rw [parseReleaseName] at h
    by_cases hf : f.data.isEmpty
    · rw [if_pos hf] at h
      cases h
    · rw [if_neg hf] at h
      exact groupFromName_ne_empty h

theorem parse_quality_ne_empty {o : Option String} {q : String}
    (h : (parseReleaseName o).quality = some q) : q.data.isEmpty = false := by
  cases o with
  | none => cases h
  | some f =>
    rw [parseReleaseName] at h
    by_cases hf : f.data.isEmpty
    · rw [if_pos hf] at h
      cases h
    · rw [if_neg hf] at h
      exact qualityFromName_ne_empty h

theorem parse_source_ne_empty {o : Option String} {q : String}
    (h : (parseReleaseName o).source = some q) : q.data.isEmpty = false := by
  cases o with
  | none => cases h
  | some f =>
    rw [parseReleaseName] at h
    by_cases hf : f.data.isEmpty
    · rw [if_pos hf] at h
      cases h
    · rw [if_neg hf] at h
      exact sourceFromName_ne_empty h

theorem parse_codec_ne_empty {o : Option String} {q : String}
    (h : (parseReleaseName o).codec = some q) : q.data.isEmpty = false := by
  cases o with
  | none => cases h
  | some f =>
    rw [parseReleaseName] at h
    by_cases hf : f.data.isEmpty
    · rw [if_pos hf] at h
      cases h
    · rw [if_neg hf] at h
      exact codecFromName_ne_empty h

theorem parse_normalized_ne_empty {o : Option String} {n : String}
    (h : (parseReleaseName o).normalized = some n) : n.data.isEmpty = false := by
  cases o with
  | none => cases h
  | some f =>
    rw [parseReleaseName] at h
    by_cases hf : f.data.isEmpty
    · rw [if_pos hf] at h
      cases h
    · rw [if_neg hf] at h
      cases h
      exact normalizeName_ne_empty (by simpa using hf)

/-! ## Truthiness of parsed fields collapses to presence -/

theorem truthy_parse_group (o : Option String) :
    truthyS (parseReleaseName o).group = (parseReleaseName o).group.isSome := by
  cases hg : (parseReleaseName o).group with
  | none => rfl
  | some g => simp [truthyS, parse_group_ne_empty hg]

theorem truthy_parse_quality (o : Option String) :
    truthyS (parseReleaseName o).quality = (parseReleaseName o).quality.isSome := by
  cases hg : (parseReleaseName o).quality with
  | none => rfl
  | some g => simp [truthyS, parse_quality_ne_empty hg]

theorem truthy_parse_source (o : Option String) :
    truthyS (parseReleaseName o).source = (parseReleaseName o).source.isSome := by
  cases hg : (parseReleaseName o).source with
  | none => rfl
  | some g => simp [truthyS, parse_source_ne_empty hg]

theorem truthy_parse_codec (o : Option String) :
    truthyS (parseReleaseName o).codec = (parseReleaseName o).codec.isSome := by
  cases hg : (parseReleaseName o).codec with
  | none => rfl
  | some g => simp [truthyS, parse_codec_ne_empty hg]

theorem truthy_parse_normalized (o : Option String) :
    truthyS (parseReleaseName o).normalized = (parseReleaseName o).normalized.isSome := by
  cases hg : (parseReleaseName o).normalized with
  | none => rfl
  | some g => simp [truthyS, parse_normalized_ne_empty hg]

/-! ## Scoring lemmas -/

theorem commonTokenCount_empty_left (sn : String) : commonTokenCount "" sn = 0 := rfl

theorem commonTokenCount_empty_right (vn : String) : commonTokenCount vn "" = 0 := by
  rw [commonTokenCount]
  have h0 : tokenSetOf "" = [] := rfl
  rw [h0]
  simp

theorem calculateMatchScore_false (sub : Sub) (vi : ReleaseInfo) :
    calculateMatchScore sub vi false =
      (if truthyS vi.group
          ∧ truthyS (parseReleaseName (some (subReleaseOf sub))).group
          ∧ vi.group = (parseReleaseName (some (subReleaseOf sub))).group
        then 40 else 0)
      + (if truthyS vi.quality
          ∧ truthyS (parseReleaseName (some (subReleaseOf sub))).quality
          ∧ vi.quality = (parseReleaseName (some (subReleaseOf sub))).quality
        then 20 else 0)
      + (if truthyS vi.source
          ∧ truthyS (parseReleaseName (some (subReleaseOf sub))).source
          ∧ vi.source = (parseReleaseName (some (subReleaseOf sub))).source
        then 15 else 0)
      + (if truthyS vi.codec
          ∧ truthyS (parseReleaseName (some (subReleaseOf sub))).codec
          ∧ vi.codec = (parseReleaseName (some (subReleaseOf sub))).codec
        then 10 else 0)
      + (if truthyS vi.normalized
          ∧ truthyS (parseReleaseName (some (subReleaseOf sub))).normalized
        then min (commonTokenCount (vi.normalized.getD "")
            ((parseReleaseName (some (subReleaseOf sub))).normalized.getD "")) 5
        else 0) := by
  simp only [calculateMatchScore, Bool.false_eq_true, if_false]
  split_ifs <;> omega

theorem calculateMatchScore_false_le (sub : Sub) (vi : ReleaseInfo) :
    calculateMatchScore sub vi false ≤ 90 := by
  rw [calculateMatchScore_false]
  have h5 := Nat.min_le_right (commonTokenCount (vi.normalized.getD "")
    ((parseReleaseName (some (subReleaseOf sub))).normalized.getD "")) 5
  split_ifs <;> omega

/-! ## Claim theorems: scoring -/

/-- C2: `calculateMatchScore` returns exactly 100 for every candidate
flagged as an exact hash match, whatever the parsed target and however
badly the release label mismatches (no other factor affects the result);
and in the scoring pipeline every subtitle whose `_hashMatch` property is
strictly `true` is scored 100. -/
theorem hash_match_dominance :
    (∀ (sub : Sub) (videoInfo : ReleaseInfo),
      calculateMatchScore sub videoInfo true = 100)
    ∧ (∀ (subtitles : List Sub) (videoInfo : ReleaseInfo) (e : ScoredSub),
      e ∈ scoredOf subtitles videoInfo → e.sub.iHashMatch = some true →
      e.score = 100) := by
  refine ⟨fun sub vi => rfl, ?_⟩
  intro subs vi e he hh
  obtain ⟨sub, hsub, hes⟩ := List.mem_map.mp he
  subst hes
  simp only at hh
  simp [calculateMatchScore, hh]

/-- Witness for C2 at a concrete hash-flagged candidate. -/
theorem hash_match_dominance_witness :
    calculateMatchScore { id := "x", iHashMatch := some true } {} true = 100
    ∧ ({ sub := { id := "x", iHashMatch := some true }, score := 100 } : ScoredSub).score
        = 100 := by
  refine ⟨hash_match_dominance.1 _ {}, ?_⟩
  exact hash_match_dominance.2 [{ id := "x", iHashMatch := some true }] {} _
    (by decide) (by decide)

/-- C3: for every candidate that is not an exact hash match and every
parsed target, the score computed by `calculateMatchScore` equals the
specification formula `claimedScoreFormula` (40 for a matching release
group — the comparison is the case-insensitive one because both parsed
groups are uppercased — plus 20 for quality, 15 for source, 10 for
codec, plus the common-token count of the normalized token sets capped
at 5), and the result lies in [0, 100].  Determinism is inherent: the
score is a pure function of the two inputs. -/
theorem deterministic_scoring_formula :
    ∀ (sub : Sub) (target : Option String),
      calculateMatchScore sub (parseReleaseName target) false
        = claimedScoreFormula (parseReleaseName target)
            (parseReleaseName (some (subReleaseOf sub)))
      ∧ calculateMatchScore sub (parseReleaseName target) false ≤ 100 := by
  intro sub o
  refine ⟨?_, le_trans (calculateMatchScore_false_le sub _) (by norm_num)⟩
  rw [calculateMatchScore_false, claimedScoreFormula]
  simp only [truthy_parse_group, truthy_parse_quality, truthy_parse_source,
    truthy_parse_codec, truthy_parse_normalized]
  congr 1
  cases hvn : (parseReleaseName o).normalized with
  | none =>
    simp [commonTokenCount_empty_left]
  | some n =>
    cases hsn : (parseReleaseName (some (subReleaseOf sub))).normalized with
    | none =>
      simp [commonTokenCount_empty_right]
    | some m =>
      simp

/-- C10: a candidate that is not an exact hash match scores at most 90
(the maximum attainable sum 40+20+15+10+5), so after the
score-descending sort every hash-matched candidate (score 100) sits
strictly before every non-hash candidate. -/
theorem hash_matches_sort_first :
    (∀ (sub : Sub) (videoInfo : ReleaseInfo),
      calculateMatchScore sub videoInfo false ≤ 90)
    ∧ (∀ (subtitles : List Sub) (parsed : ParsedId) (i j : Nat)
        (hi : i < (sortedScored subtitles parsed).length)
        (hj : j < (sortedScored subtitles parsed).length), i < j →
        ((sortedScored subtitles parsed).get ⟨j, hj⟩).sub.iHashMatch = some true →
        ((sortedScored subtitles parsed).get ⟨i, hi⟩).sub.iHashMatch = some true) := by
  refine ⟨calculateMatchScore_false_le, ?_⟩
  intro subs parsed i j hi hj hij hjh
  have hsorted : List.Sorted scoreDescOrder (sortedScored subs parsed) :=
    List.sorted_insertionSort scoreDescOrder _
  have hrel : scoreDescOrder ((sortedScored subs parsed).get ⟨i, hi⟩)
      ((sortedScored subs parsed).get ⟨j, hj⟩) :=
    hsorted.rel_get_of_lt (by exact hij)
  have hscore : ∀ e : ScoredSub, e ∈ sortedScored subs parsed →
      e.score = calculateMatchScore e.sub (parseReleaseName parsed.filename)
        (decide (e.sub.iHashMatch = some true)) := by
    intro e he
    have hmem : e ∈ scoredOf subs (parseReleaseName parsed.filename) :=
      ((List.perm_insertionSort scoreDescOrder _).mem_iff).mp he
    obtain ⟨sub, hs, hes⟩ := List.mem_map.mp hmem
    subst hes
    rfl
  by_contra hni
  have hjscore : ((sortedScored subs parsed).get ⟨j, hj⟩).score = 100 := by
    rw [hscore _ (List.get_mem _ _ _), hjh]
    rfl
  have hiscore : ((sortedScored subs parsed).get ⟨i, hi⟩).score ≤ 90 := by
    rw [hscore _ (List.get_mem _ _ _), decide_eq_false hni]
    exact calculateMatchScore_false_le _ _
  rw [scoreDescOrder, hjscore] at hrel
  omega

/-- Witness for C10 at a concrete two-element hash-matched list. -/
theorem hash_matches_sort_first_witness :
    calculateMatchScore { id := "n" } {} false ≤ 90
    ∧ ((sortedScored [{ id := "a", iHashMatch := some true },
          { id := "b", iHashMatch := some true }]
        { imdbId := some "tt1", type := "movie", videoHash := some "h" }).get
          ⟨0, by decide⟩).sub.iHashMatch = some true := by
  refine ⟨hash_matches_sort_first.1 _ {}, ?_⟩
  exact hash_matches_sort_first.2
    [{ id := "a", iHashMatch := some true }, { id := "b", iHashMatch := some true }]
    { imdbId := some "tt1", type := "movie", videoHash := some "h" }
    0 1 (by decide) (by decide) (by decide) (by decide)

/-! ## Claim theorems: skipping the ranking (C8) -/

/-- C8 refuted: the claim says a missing target filename alone skips
scoring and preserves the merge order, but with a video hash present and
no filename the code still scores and reorders — here a hash-matched
second candidate moves in front of the first. -/
theorem no_filename_skip_counterexample :
    sortSubtitlesByMatch
        [{ id := "a", iHashMatch := some false },
         { id := "b", iHashMatch := some true }]
        { imdbId := some "tt1", type := "movie", videoHash := some "h",
          filename := none }
      ≠ [{ id := "a", iHashMatch := some false },
         { id := "b", iHashMatch := some true }] := by
  decide

/-- C8 (amended): when the target carries neither a filename nor a video
hash, ranking is skipped for every candidate and the very same list is
returned — no score is computed and the original merge order is
preserved. -/
theorem no_file_info_skips_scoring :
    ∀ (subtitles : List Sub) (parsed : ParsedId),
      truthyS parsed.filename = false → truthyS parsed.videoHash = false →
      sortSubtitlesByMatch subtitles parsed = subtitles := by
  intro subs parsed h1 h2
  rw [sortSubtitlesByMatch]
  simp [h1, h2]

/-- Witness for the amended C8 at a concrete hashless, filenameless
request. -/
theorem no_file_info_skips_scoring_witness :
    sortSubtitlesByMatch [{ id := "a" }] { imdbId := some "tt1", type := "movie" }
      = [{ id := "a" }] :=
  no_file_info_skips_scoring _ _ (by decide) (by decide)

/-! ## Claim theorems: caching -/

theorem scGet_ttl (st : SubtitlesCache) (now : Int) (type id : String) :
    ((scGet st now type id).2).ttl = st.ttl := by
  rw [scGet]
  split
  · rfl
  · split <;> rfl

theorem parseId_imdbId_indep (id type : String) (e1 e2 : Extra) :
    (parseId id type e1).imdbId = (parseId id type e2).imdbId := by
  rw [parseId, parseId]
  by_cases hid : id.data.isEmpty
  · rw [if_pos hid, if_pos hid]
  · rw [if_neg hid, if_neg hid]
    by_cases hser : type = "series" ∧ id.data.contains ':'
    · rw [if_pos hser, if_pos hser]
      dsimp only
      by_cases hv : isValidImdb ((jsSplitChar id ':').headD "")
      · rw [if_pos hv, if_pos hv]
      · rw [if_neg hv, if_neg hv]
    · rw [if_neg hser, if_neg hser]
      dsimp only
      by_cases hv : isValidImdb ((jsSplitChar id ':').headD "")
      · rw [if_pos hv, if_pos hv]
      · rw [if_neg hv, if_neg hv]

theorem sortSubtitlesByMatch_nil (parsed : ParsedId) :
    sortSubtitlesByMatch [] parsed = [] := by
  rw [sortSubtitlesByMatch]
  split
  · rfl
  · simp [sortedScored, scoredOf]

/-- C4: when every configured provider returns zero candidates, the
handler stores the empty candidate set in `SubtitlesCache` under the
request's `type:id` key with expiry `now + ttl`, and a second request
for the same type and id within the TTL window is served from the cache:
it returns the same empty set and issues zero upstream provider calls,
whatever the providers would answer and whatever file info the second
request carries. -/
theorem idempotent_empty_caching :
    ∀ (cfg : SourcesConfig) (env env2 : SearchEnv) (addonUrl addonUrl2 : String)
      (now now2 : Int) (st : SubtitlesCache) (args : HandlerArgs)
      (extra2 : Option Extra),
      (parseId args.id args.type (args.extra.getD {})).imdbId.isSome = true →
      (scGet st now args.type args.id).1 = none →
      mergedResults cfg (parseId args.id args.type (args.extra.getD {})) env
        addonUrl now = [] →
      now2 ≤ now + st.ttl →
      (handleSubtitles cfg env addonUrl now st args).subtitles = []
      ∧ (handleSubtitles cfg env addonUrl now st args).cache.cache.lookup
          (generateKey args.type args.id)
          = some { subtitles := [], expiry := now + st.ttl, timestamp := now }
      ∧ (handleSubtitles cfg env2 addonUrl2 now2
            (handleSubtitles cfg env addonUrl now st args).cache
            { type := args.type, id := args.id, extra := extra2 }).subtitles = []
      ∧ (handleSubtitles cfg env2 addonUrl2 now2
            (handleSubtitles cfg env addonUrl now st args).cache
            { type := args.type, id := args.id, extra := extra2 }).upstreamCalls
          = 0 := by
  intro cfg env env2 addonUrl addonUrl2 now now2 st args extra2 hsome hmiss hempty hle
  obtain ⟨v, hv⟩ := Option.isSome_iff_exists.mp hsome
  have hout1 : handleSubtitles cfg env addonUrl now st args =
      { subtitles := []
        cache := scSet (scGet st now args.type args.id).2 now args.type args.id []
        upstreamCalls := upstreamCallCount cfg
          (parseId args.id args.type (args.extra.getD {})) } := by
    rw [handleSubtitles, hv]
    dsimp only
    rw [hmiss]
    dsimp only
    rw [hempty]
    rfl
  have hlk : (scSet (scGet st now args.type args.id).2 now args.type args.id
        []).cache.lookup (generateKey args.type args.id)
      = some { subtitles := [], expiry := now + st.ttl, timestamp := now } := by
    rw [scSet]
    dsimp only
    rw [lookup_cons_self, scGet_ttl]
  refine ⟨by rw [hout1], by rw [hout1]; exact hlk, ?_, ?_⟩ <;>
  · rw [hout1]
    rw [handleSubtitles]
    have hv2 : (parseId args.id args.type (extra2.getD {})).imdbId = some v := by
      rw [parseId_imdbId_indep args.id args.type (extra2.getD {})
        (args.extra.getD {})]
      exact hv
    dsimp only
    rw [hv2]
    dsimp only
    rw [scGet]
    try dsimp only
    rw [hlk]
    dsimp only
    have hnotexp : ¬ now2 >
        (CacheItem.mk [] (now + st.ttl) now).expiry := by
      dsimp only
      omega
    rw [if_neg hnotexp]
    dsimp only
    split
    · simp [sortSubtitlesByMatch_nil]
    · rfl

/-- Witness for C4 at a concrete first-and-second search for
`movie/tt0000001` with all providers empty. -/
theorem idempotent_empty_caching_witness :
    (handleSubtitles allSources {} "u" 0 freshScCache movieArgs).subtitles = []
    ∧ (handleSubtitles allSources {} "u" 0 freshScCache movieArgs).cache.cache.lookup
        (generateKey "movie" "tt0000001")
        = some { subtitles := [], expiry := 0 + freshScCache.ttl, timestamp := 0 }
    ∧ (handleSubtitles allSources overflowEnv "u2" 1000
          (handleSubtitles allSources {} "u" 0 freshScCache movieArgs).cache
          { type := "movie", id := "tt0000001", extra := none }).subtitles = []
    ∧ (handleSubtitles allSources overflowEnv "u2" 1000
          (handleSubtitles allSources {} "u" 0 freshScCache movieArgs).cache
          { type := "movie", id := "tt0000001", extra := none }).upstreamCalls
        = 0 :=
  idempotent_empty_caching allSources {} overflowEnv "u" "u2" 0 1000 freshScCache
    movieArgs none (by decide) (by decide) (by decide) (by decide)

/-- C6: in the durable availability cache, a `get` on an expired entry
(`now` strictly greater than `expiresAt`) returns `null` exactly like a
miss and physically removes the entry; a missing entry is a miss leaving
the store untouched; and with the default 7-day TTL an entry written at
`T` is a hit at `T+6d23h59m` and a miss at `T+7d0m1s`, after which the
entry is gone from the store. -/
theorem availability_ttl_expiry :
    ∀ (st : PersistentCache) (id : String) (entry : PCEntry) (now T : Int)
      (d : PCData),
      (st.data.lookup id = some entry → now > entry.expiresAt →
        (pcGet st now id).1 = none
        ∧ (pcGet st now id).2.data.lookup id = none)
      ∧ (st.data.lookup id = none → pcGet st now id = (none, st))
      ∧ (st.ttl = pcDefaultTTL →
        (pcGet (pcSet st T id d) (T + 604740000) id).1 = some d
        ∧ (pcGet (pcSet st T id d) (T + 604801000) id).1 = none
        ∧ (pcGet (pcSet st T id d) (T + 604801000) id).2.data.lookup id
            = none) := by
  intro st id entry now T d
  refine ⟨?_, ?_, ?_⟩
  · intro hlk hexp
    rw [pcGet, hlk]
    dsimp only
    rw [if_pos hexp]
    exact ⟨rfl, lookup_eraseKey_self _ _⟩
  · intro hlk
    rw [pcGet, hlk]
  · intro httl
    rw [pcDefaultTTL] at httl
    have hset : (pcSet st T id d).data.lookup id
        = some { available := d.available, count := d.count, checkedAt := T,
                 expiresAt := T + st.ttl } := by
      rw [pcSet]
      exact lookup_cons_self _ _ _
    refine ⟨?_, ?_, ?_⟩
    · rw [pcGet, hset]
      dsimp only
      rw [if_neg (by omega)]
    · rw [pcGet, hset]
      dsimp only
      rw [if_pos (by omega)]
    · rw [pcGet, hset]
      dsimp only
      rw [if_pos (by omega)]
      exact lookup_eraseKey_self _ _

/-- Witness for C6 on a one-entry store and on a freshly written
default-TTL entry. -/
theorem availability_ttl_expiry_witness :
    ((pcGet pcFixStore 6 "tt9").1 = none
      ∧ (pcGet pcFixStore 6 "tt9").2.data.lookup "tt9" = none)
    ∧ ((pcGet (pcSet pcEmptyStore 0 "tt9" pcFixData) 604740000 "tt9").1
        = some pcFixData
      ∧ (pcGet (pcSet pcEmptyStore 0 "tt9" pcFixData) 604801000 "tt9").1 = none
      ∧ (pcGet (pcSet pcEmptyStore 0 "tt9" pcFixData) 604801000
          "tt9").2.data.lookup "tt9" = none) := by
  constructor
  · exact (availability_ttl_expiry pcFixStore "tt9" pcFixEntry 6 0 pcFixData).1
      (by decide) (by decide)
  · have h := (availability_ttl_expiry pcEmptyStore "tt9" pcFixEntry 6 0
      pcFixData).2.2 rfl
    refine ⟨?_, ?_, ?_⟩
    · have h1 := h.1
      rw [show (0 : Int) + 604740000 = 604740000 from rfl] at h1
      exact h1
    · have h2 := h.2.1
      rw [show (0 : Int) + 604801000 = 604801000 from rfl] at h2
      exact h2
    · have h3 := h.2.2
      rw [show (0 : Int) + 604801000 = 604801000 from rfl] at h3
      exact h3

/-! ## Claim theorems: rate-limit cooldown (C5) -/

/-- C5 refuted: an explicitly supplied suggested delay of 0 seconds does
not give `cooldownUntil = now + 0` as the claim's `suggestedSeconds if
supplied` reading demands — the code tests the seconds for JS truthiness,
so a zero delay falls back to the 5-minute default. -/
theorem cooldown_zero_counterexample :
    (setRateLimited {} 0 .os (some 0)).osUntil = 300000
    ∧ (300000 : Int) ≠ 0 + 0 := by
  exact ⟨rfl, by decide⟩

/-- C5 (amended): `setRateLimited` sets the cooldown to
`now + seconds * 1000` when a nonzero (truthy) suggested delay is
supplied and to `now + 5min` when the delay is missing or zero; a source
is call-eligible iff `now ≥ cooldownUntil`; while rate-limited, `checkAll`
issues no network call to that source and records `null` for it; and
after a 120-second suggested delay at `T` the source is skipped for all
`T ≤ now < T+120s` and is eligible again at `T+121s`. -/
theorem cooldown_enforcement :
    (∀ (st : CheckerState) (now : Int) (src : CheckerSource) (k : Int), k ≠ 0 →
      rlUntil (setRateLimited st now src (some k)) src = now + k * 1000)
    ∧ (∀ (st : CheckerState) (now : Int) (src : CheckerSource),
      rlUntil (setRateLimited st now src none) src = now + defaultRateLimitDuration
      ∧ rlUntil (setRateLimited st now src (some 0)) src
          = now + defaultRateLimitDuration)
    ∧ (∀ (st : CheckerState) (now : Int) (src : CheckerSource),
      isRateLimited st now src = false ↔ rlUntil st src ≤ now)
    ∧ (∀ (cfg : CheckerCfg) (st : CheckerState) (now : Int)
        (osResp subdlResp : CheckResp),
      isRateLimited st now .os = true →
      (checkAll cfg st now osResp subdlResp).osCalls = 0
      ∧ (checkAll cfg st now osResp subdlResp).out.osSource = none)
    ∧ (∀ (st : CheckerState) (T : Int),
      rlUntil (setRateLimited st T .os (some 120)) .os = T + 120000
      ∧ (∀ n : Int, T ≤ n → n < T + 120000 →
          isRateLimited (setRateLimited st T .os (some 120)) n .os = true)
      ∧ isRateLimited (setRateLimited st T .os (some 120)) (T + 121000) .os
          = false) := by
  refine ⟨?_, ?_, ?_, ?_, ?_⟩
  · intro st now src k hk
    cases src <;> simp [setRateLimited, rlUntil, hk]
  · intro st now src
    constructor <;> (cases src <;> simp [setRateLimited, rlUntil])
  · intro st now src
    simp [isRateLimited, not_lt]
  · intro cfg st now osResp subdlResp h
    constructor <;> simp [checkAll, h]
  · intro st T
    refine ⟨?_, ?_, ?_⟩
    · simp [setRateLimited, rlUntil]
    · intro n h1 h2
      simp only [isRateLimited, setRateLimited, rlUntil]
      simp only [decide_eq_true_eq]
      omega
    · simp only [isRateLimited, setRateLimited, rlUntil]
      simp only [decide_eq_false_iff_not, not_lt]
      omega

/-- Witness for the amended C5 at concrete delays and times. -/
theorem cooldown_enforcement_witness :
    rlUntil (setRateLimited {} 0 .os (some 120)) .os = 0 + 120 * 1000
    ∧ ((checkAll { hasOsKey := true, hasSubdlKey := true }
        { osUntil := 10, subdlUntil := 0 } 5 .netError .netError).osCalls = 0
      ∧ (checkAll { hasOsKey := true, hasSubdlKey := true }
        { osUntil := 10, subdlUntil := 0 } 5 .netError .netError).out.osSource
        = none)
    ∧ isRateLimited (setRateLimited {} 0 .os (some 120)) (0 + 121000) .os
        = false := by
  refine ⟨?_, ?_, ?_⟩
  · exact cooldown_enforcement.1 {} 0 .os 120 (by decide)
  · exact cooldown_enforcement.2.2.2.1 { hasOsKey := true, hasSubdlKey := true }
      { osUntil := 10, subdlUntil := 0 } 5 .netError .netError (by decide)
  · exact (cooldown_enforcement.2.2.2.2 {} 0).2.2

/-! ## Claim theorems: result caps (C7) -/

theorem sortSubtitlesByMatch_length (subtitles : List Sub) (parsed : ParsedId) :
    (sortSubtitlesByMatch subtitles parsed).length = subtitles.length := by
  rw [sortSubtitlesByMatch]
  split
  · rfl
  · rw [List.length_map, sortedScored,
      (List.perm_insertionSort scoreDescOrder _).length_eq, scoredOf,
      List.length_map]

theorem mergedResults_decomp (cfg : SourcesConfig) (parsed : ParsedId)
    (env : SearchEnv) (url : String) (now : Int) :
    mergedResults cfg parsed env url now
      = (if cfg.osOn then searchOpenSubtitlesW parsed env url else [])
        ++ (if cfg.subdlOn then searchSubDLW env else [])
        ++ (if cfg.yifyOn then searchYIFYW parsed env now else []) := by
  rw [mergedResults]
  cases h1 : cfg.osOn <;> cases h2 : cfg.subdlOn <;> cases h3 : cfg.yifyOn <;>
    simp [h1, h2, h3]

theorem osSearch_len (vh : Option String) (vs : Option Int)
    (hr ir : Except ApiErr (List OsRaw)) :
    (osSearchSubtitles vh vs hr ir).subtitles.length ≤ osMaxSubtitles := by
  unfold osSearchSubtitles
  dsimp only
  rw [List.length_take]
  exact Nat.min_le_left _ _

theorem subdlSearch_len (resp : Except ApiErr (List SubdlRaw)) :
    (subdlSearchSubtitles resp).length ≤ subdlMaxSubtitles := by
  unfold subdlSearchSubtitles
  split
  · rw [List.length_take]
    exact Nat.min_le_left _ _
  · simp

theorem yifySearch_len (type : String) (resp : Except ApiErr (Option YifyResp)) :
    (yifySearchSubtitles type resp).length ≤ yifyMaxSubtitles := by
  unfold yifySearchSubtitles
  split
  · simp
  · split
    · simp
    · simp
    · split <;>
      · dsimp only
        split
        · simp
        · rw [List.length_take]
          exact Nat.min_le_left _ _

theorem osW_len (parsed : ParsedId) (env : SearchEnv) (url : String) :
    (searchOpenSubtitlesW parsed env url).length ≤ osMaxSubtitles := by
  rw [searchOpenSubtitlesW]
  split
  · simp
  · exact le_trans (List.length_filterMap_le _ _) (osSearch_len _ _ _ _)

theorem subdlW_len (env : SearchEnv) :
    (searchSubDLW env).length ≤ subdlMaxSubtitles := by
  rw [searchSubDLW]
  split
  · simp
  · exact le_trans (List.length_filterMap_le _ _) (subdlSearch_len _)

theorem yifyW_len (parsed : ParsedId) (env : SearchEnv) (now : Int) :
    (searchYIFYW parsed env now).length ≤ yifyMaxSubtitles := by
  rw [searchYIFYW]
  split
  · simp
  · exact le_trans (List.length_filterMap_le _ _) (yifySearch_len _ _)

theorem mergedResults_len (cfg : SourcesConfig) (parsed : ParsedId)
    (env : SearchEnv) (url : String) (now : Int) :
    (mergedResults cfg parsed env url now).length
      ≤ osMaxSubtitles + subdlMaxSubtitles + yifyMaxSubtitles := by
  rw [mergedResults_decomp, List.length_append, List.length_append]
  have h1 : (if cfg.osOn then searchOpenSubtitlesW parsed env url else []).length
      ≤ osMaxSubtitles := by
    split
    · exact osW_len _ _ _
    · simp
  have h2 : (if cfg.subdlOn then searchSubDLW env else []).length
      ≤ subdlMaxSubtitles := by
    split
    · exact subdlW_len _
    · simp
  have h3 : (if cfg.yifyOn then searchYIFYW parsed env now else []).length
      ≤ yifyMaxSubtitles := by
    split
    · exact yifyW_len _ _ _
    · simp
  omega

/-- C7 refuted: the returned candidate sequence is not capped at 15
overall (nor at 5): with all three providers configured and 20 raw
results each, the handler returns 5 + 15 + 15 = 35 candidates (and
caches all 35). -/
theorem overall_cap_counterexample :
    (handleSubtitles allSources overflowEnv "u" 0 freshScCache
        movieArgs).subtitles.length = 35
    ∧ ¬ (handleSubtitles allSources overflowEnv "u" 0 freshScCache
        movieArgs).subtitles.length ≤ 15 := by
  constructor
  · decide
  · decide

/-- C7 (amended): the cap is per provider, not global: the OpenSubtitles
client contributes at most `MAX_SUBTITLES = 5` (its reduced-footprint
constant), SubDL and YIFY at most 15 each, so the merged sequence — and,
on a fan-out, the cached entry — is bounded by the sum 35 of the active
per-provider caps; the caps are applied inside the clients, before
caching. -/
theorem per_provider_caps :
    (∀ (vh : Option String) (vs : Option Int) (hr ir : Except ApiErr (List OsRaw)),
      (osSearchSubtitles vh vs hr ir).subtitles.length ≤ osMaxSubtitles)
    ∧ (∀ resp, (subdlSearchSubtitles resp).length ≤ subdlMaxSubtitles)
    ∧ (∀ type resp, (yifySearchSubtitles type resp).length ≤ yifyMaxSubtitles)
    ∧ (∀ (cfg : SourcesConfig) (parsed : ParsedId) (env : SearchEnv)
        (url : String) (now : Int),
      (mergedResults cfg parsed env url now).length
        ≤ osMaxSubtitles + subdlMaxSubtitles + yifyMaxSubtitles)
    ∧ (∀ (cfg : SourcesConfig) (env : SearchEnv) (url : String) (now : Int)
        (st : SubtitlesCache) (args : HandlerArgs),
      (parseId args.id args.type (args.extra.getD {})).imdbId.isSome = true →
      (scGet st now args.type args.id).1 = none →
      (handleSubtitles cfg env url now st args).subtitles.length
        ≤ osMaxSubtitles + subdlMaxSubtitles + yifyMaxSubtitles
      ∧ ∀ item, (handleSubtitles cfg env url now st args).cache.cache.lookup
          (generateKey args.type args.id) = some item →
          item.subtitles.length
            ≤ osMaxSubtitles + subdlMaxSubtitles + yifyMaxSubtitles) := by
  refine ⟨osSearch_len, subdlSearch_len, yifySearch_len, mergedResults_len, ?_⟩
  intro cfg env url now st args hsome hmiss
  obtain ⟨v, hv⟩ := Option.isSome_iff_exists.mp hsome
  have hout : handleSubtitles cfg env url now st args =
      (let allSubtitles := mergedResults cfg
          (parseId args.id args.type (args.extra.getD {})) env url now
       { subtitles := if allSubtitles.isEmpty then []
            else sortSubtitlesByMatch allSubtitles
              (parseId args.id args.type (args.extra.getD {}))
         cache := scSet (scGet st now args.type args.id).2 now args.type args.id
            allSubtitles
         upstreamCalls := upstreamCallCount cfg
            (parseId args.id args.type (args.extra.getD {})) }) := by
    rw [handleSubtitles, hv]
    dsimp only
    rw [hmiss]
    dsimp only
    split
    · rfl
    · rfl
  rw [hout]
  dsimp only
  constructor
  · split
    · simp
    · rw [sortSubtitlesByMatch_length]
      exact mergedResults_len _ _ _ _ _
  · intro item hitem
    rw [scSet] at hitem
    dsimp only at hitem
    rw [lookup_cons_self] at hitem
    cases hitem
    exact mergedResults_len _ _ _ _ _

/-- Witness for the amended C7 at the concrete overflowing fan-out. -/
theorem per_provider_caps_witness :
    (handleSubtitles allSources overflowEnv "u" 0 freshScCache
        movieArgs).subtitles.length
      ≤ osMaxSubtitles + subdlMaxSubtitles + yifyMaxSubtitles :=
  (per_provider_caps.2.2.2.2 allSources overflowEnv "u" 0 freshScCache movieArgs
    (by decide) (by decide)).1

/-! ## Claim theorems: failure isolation (C9) -/

/-- C9: provider calls are failure-isolated: a provider whose upstream
requests fail (error, timeout or throttling) contributes an empty
candidate list; the merged result decomposes provider by provider, each
wrapper reading only its own provider's outcome, so sibling providers
are unaffected; the handler still answers (with an empty list) when
every provider fails; and only the resolution path propagates failure —
a throttled resolution surfaces as a 429 carrying the suggested retry
delay when one was supplied. -/
theorem provider_failure_isolation :
    (∀ (parsed : ParsedId) (url : String) (env : SearchEnv) (e1 e2 : ApiErr),
      env.osHash = .error e1 → env.osImdb = .error e2 →
      searchOpenSubtitlesW parsed env url = [])
    ∧ (∀ (env : SearchEnv) (e : ApiErr), env.subdl = .error e →
      searchSubDLW env = [])
    ∧ (∀ (parsed : ParsedId) (env : SearchEnv) (now : Int) (e : ApiErr),
      env.yify = .error e → searchYIFYW parsed env now = [])
    ∧ (∀ (cfg : SourcesConfig) (parsed : ParsedId) (env : SearchEnv)
        (url : String) (now : Int),
      mergedResults cfg parsed env url now
        = (if cfg.osOn then searchOpenSubtitlesW parsed env url else [])
          ++ (if cfg.subdlOn then searchSubDLW env else [])
          ++ (if cfg.yifyOn then searchYIFYW parsed env now else []))
    ∧ (∀ (envA envB : SearchEnv) (parsed : ParsedId) (url : String) (now : Int),
      (envA.osHash = envB.osHash → envA.osImdb = envB.osImdb →
        searchOpenSubtitlesW parsed envA url = searchOpenSubtitlesW parsed envB url)
      ∧ (envA.subdl = envB.subdl → searchSubDLW envA = searchSubDLW envB)
      ∧ (envA.yify = envB.yify → searchYIFYW parsed envA now
          = searchYIFYW parsed envB now))
    ∧ (∀ (cfg : SourcesConfig) (env : SearchEnv) (url : String) (now : Int)
        (st : SubtitlesCache) (args : HandlerArgs) (e1 e2 e3 e4 : ApiErr),
      (parseId args.id args.type (args.extra.getD {})).imdbId.isSome = true →
      (scGet st now args.type args.id).1 = none →
      env.osHash = .error e1 → env.osImdb = .error e2 → env.subdl = .error e3 →
      env.yify = .error e4 →
      (handleSubtitles cfg env url now st args).subtitles = [])
    ∧ (∀ (fileId : String) (ra : Option String), isNumericStr fileId = true →
      (proxyOsRoute true fileId (.error (.rateLimit ra))).status = 429
      ∧ (truthyS ra = true →
        (proxyOsRoute true fileId (.error (.rateLimit ra))).retryAfter = ra)) := by
  have hos : ∀ (parsed : ParsedId) (url : String) (env : SearchEnv) (e1 e2 : ApiErr),
      env.osHash = .error e1 → env.osImdb = .error e2 →
      searchOpenSubtitlesW parsed env url = [] := by
    intro parsed url env e1 e2 h1 h2
    rw [searchOpenSubtitlesW]
    unfold osSearchSubtitles
    rw [h1, h2]
    dsimp only
    split <;> rfl
  have hsubdl : ∀ (env : SearchEnv) (e : ApiErr), env.subdl = .error e →
      searchSubDLW env = [] := by
    intro env e h
    rw [searchSubDLW]
    unfold subdlSearchSubtitles
    rw [h]
    rfl
  have hyify : ∀ (parsed : ParsedId) (env : SearchEnv) (now : Int) (e : ApiErr),
      env.yify = .error e → searchYIFYW parsed env now = [] := by
    intro parsed env now e h
    rw [searchYIFYW]
    unfold yifySearchSubtitles
    rw [h]
    dsimp only
    split <;> rfl
  refine ⟨hos, hsubdl, hyify, mergedResults_decomp, ?_, ?_, ?_⟩
  · intro envA envB parsed url now
    refine ⟨?_, ?_, ?_⟩
    · intro h1 h2
      rw [searchOpenSubtitlesW, searchOpenSubtitlesW, h1, h2]
    · intro h
      rw [searchSubDLW, searchSubDLW, h]
    · intro h
      rw [searchYIFYW, searchYIFYW, h]
  · intro cfg env url now st args e1 e2 e3 e4 hsome hmiss h1 h2 h3 h4
    obtain ⟨v, hv⟩ := Option.isSome_iff_exists.mp hsome
    have hempty : mergedResults cfg
        (parseId args.id args.type (args.extra.getD {})) env url now = [] := by
      rw [mergedResults_decomp, hos _ url env e1 e2 h1 h2, hsubdl env e3 h3,
        hyify _ env now e4 h4]
      simp
    rw [handleSubtitles, hv]
    dsimp only
    rw [hmiss]
    dsimp only
    rw [hempty]
    rfl
  · intro fileId ra hnum
    constructor
    · rw [proxyOsRoute]
      simp [hnum]
    · intro htr
      rw [proxyOsRoute]
      simp [hnum, htr]

/-- Witness for C9 at a concrete all-failing environment and a throttled
resolution. -/
theorem provider_failure_isolation_witness :
    (handleSubtitles allSources allFailEnv "u" 0 freshScCache movieArgs).subtitles
      = []
    ∧ (proxyOsRoute true "123" (.error (.rateLimit (some "30")))).status = 429
    ∧ (proxyOsRoute true "123" (.error (.rateLimit (some "30")))).retryAfter
      = some "30" := by
  refine ⟨?_, ?_, ?_⟩
  · exact provider_failure_isolation.2.2.2.2.2.1 allSources allFailEnv "u" 0
      freshScCache movieArgs .other (.rateLimit (some "9")) .other .other
      (by decide) (by decide) rfl rfl rfl rfl
  · exact (provider_failure_isolation.2.2.2.2.2.2 "123" (some "30") (by decide)).1
  · exact (provider_failure_isolation.2.2.2.2.2.2 "123" (some "30") (by decide)).2
      (by decide)

/-! ## Claim theorems: single-flight resolution (C1) -/

theorem mem_of_getElem_opt {α : Type} {l : List α} {i : Nat} {a : α}
    (h : l[i]? = some a) : a ∈ l := by
  obtain ⟨hlt, heq⟩ := List.getElem?_eq_some_iff.mp h
  exact heq ▸ List.getElem_mem hlt

/-- C1: in every reachable state of the resolution subsystem, at most one
upstream `/download` call is in flight per file id; while a pending
resolution is registered for a file id, running `getDownloadLink` for it
starts no new upstream call (promise registry, counter and in-flight
registry are untouched — the caller coalesces or is served by the link
cache); every registered entry points at a still-pending computation
(equivalently, the entry is gone once the computation settles, so later
callers can retry); any two callers resumed by the same promise receive
the same final locator or the same failure; and settling a promise —
success or failure — removes its registry entry while recording its
outcome. -/
theorem single_flight_resolution :
    ∀ s : SFState, SFReach s →
      (∀ fid p q, InFlight s fid p → InFlight s fid q → p = q)
      ∧ (∀ i fid pid, s.pend.lookup fid = some pid →
          (runTask s i fid).proms = s.proms
          ∧ (runTask s i fid).nextPid = s.nextPid
          ∧ (runTask s i fid).pend = s.pend)
      ∧ (∀ fid pid, s.pend.lookup fid = some pid →
          s.proms.lookup pid = some ⟨fid, .pending⟩)
      ∧ (∀ (i j : Nat) (ti tj : SFTask) (pid : Nat)
          (r1 r2 : Except RErr (Option String)),
          s.tasks[i]? = some ti → s.tasks[j]? = some tj →
          ti.status = .done (some pid) r1 → tj.status = .done (some pid) r2 →
          r1 = r2)
      ∧ (∀ pid fid r, s.proms.lookup pid = some ⟨fid, .pending⟩ →
          (settleProm s pid fid r).pend.lookup fid = none
          ∧ (settleProm s pid fid r).proms.lookup pid
              = some ⟨fid, .settled r⟩) := by
  intro s hreach
  have hinv := sfReach_inv hreach
  refine ⟨?_, ?_, hinv.pendProm, ?_, ?_⟩
  · intro fid p q hp hq
    have hp2 := hinv.promPend p fid (mem_lookup_of_nodup_keys hinv.promKeys hp)
    have hq2 := hinv.promPend q fid (mem_lookup_of_nodup_keys hinv.promKeys hq)
    exact Option.some.inj (hp2.symm.trans hq2)
  · intro i fid pid hp
    have hatt : ∀ s' : SFState, s'.pend = s.pend → s'.proms = s.proms →
        s'.nextPid = s.nextPid →
        (sfAttach s' i fid).proms = s.proms
        ∧ (sfAttach s' i fid).nextPid = s.nextPid
        ∧ (sfAttach s' i fid).pend = s.pend := by
      intro s' hp' hpr hn
      rw [sfAttach, hp', hp]
      exact ⟨hpr, hn, rfl⟩
    rw [runTask]
    cases hc : (sfCacheGet s.now s.cache fid).1 with
    | some cached =>
      dsimp only
      by_cases hce : cached.data.isEmpty
      · rw [if_pos hce]
        exact hatt _ rfl rfl rfl
      · rw [if_neg hce]
        exact ⟨rfl, rfl, rfl⟩
    | none =>
      dsimp only
      exact hatt _ rfl rfl rfl
  · intro i j ti tj pid r1 r2 hti htj h1 h2
    have hmi : ti ∈ s.tasks := mem_of_getElem_opt hti
    have hmj : tj ∈ s.tasks := mem_of_getElem_opt htj
    obtain ⟨f1, e1⟩ := hinv.doneProm ti hmi pid r1 h1
    obtain ⟨f2, e2⟩ := hinv.doneProm tj hmj pid r2 h2
    have := Option.some.inj (e1.symm.trans e2)
    cases this
    rfl
  · intro pid fid r hget
    exact ⟨lookup_eraseKey_self _ _, lookup_map_replace_self _ hget⟩

/-- Witness for C1 along a concrete run: two callers for file id 7, one
upstream promise, coalescing, and a successful settlement. -/
theorem single_flight_resolution_witness :
    (runTask sfw3 1 7).proms = sfw3.proms
    ∧ sfw5.pend.lookup 7 = none
    ∧ sfw5.proms.lookup 0 = some ⟨7, .settled sfResOk⟩
    ∧ (0 : Nat) = 0 := by
  have r1 : SFReach sfw1 := SFReach.step SFReach.init (SFStep.spawn sfInit 7)
  have r2 : SFReach sfw2 := SFReach.step r1 (SFStep.spawn sfw1 7)
  have r3 : SFReach sfw3 :=
    SFReach.step r2 (SFStep.run sfw2 0 ⟨7, .ready⟩ (by decide) rfl)
  have r4 : SFReach sfw4 :=
    SFReach.step r3 (SFStep.run sfw3 1 ⟨7, .ready⟩ (by decide) rfl)
  refine ⟨((single_flight_resolution sfw3 r3).2.1 1 7 0 (by decide)).1, ?_, ?_, ?_⟩
  · exact ((single_flight_resolution sfw4 r4).2.2.2.2 0 7 sfResOk (by decide)).1
  · exact ((single_flight_resolution sfw4 r4).2.2.2.2 0 7 sfResOk (by decide)).2
  · exact (single_flight_resolution sfw3 r3).1 7 0 0
      (by unfold InFlight; decide) (by unfold InFlight; decide)

end SubtitlooSpec
